import Mathlib

/-!
Verification of the stealth-fetch HTTP client engine.

Each definition in this file is a shallow embedding of a function or state
machine of the TypeScript source; the doc comment of every definition names
the file and symbol it is translated from.  JavaScript numbers are modelled
as `Int` (or `ℚ` where fractional values occur), JavaScript bit operations on
non-negative integers are written with `/`, `%` and `*` over powers of two,
buffers are `List Nat` with every element below 256, and code that can throw
is modelled with `Option`/`Except` or an explicit "threw" flag.
-/

namespace StealthFetch

/-! ## HTTP/2 flow-control window — src/http2/flow-control.ts

`FlowControlWindow` tracks the available send window.  `consume` debits the
window or enqueues a waiter, `update` credits it (checking the RFC 7540
2^31-1 overflow bound *after* the addition) and then drains the FIFO waiter
queue.  Waiters are recorded by their requested size; resolving a waiter is
modelled by appending its size to the list of resolved sizes. -/

/-- State of a `FlowControlWindow` (src/http2/flow-control.ts, class fields):
`available` window, FIFO `waiters` queue (each waiter kept as its requested
`size`), and the `cancelled` flag. -/
structure FlowControlWindow where
  available : Int
  waiters : List Int
  cancelled : Bool
deriving Repr, DecidableEq

/-- Model of `FlowControlWindow.drainWaiters` (src/http2/flow-control.ts:88-99):
`while (waiters.length > 0 && available > 0)` resolve the head waiter if
`available >= waiter.size`, debiting its size, otherwise `break`.
Returns `(available', waiters', resolved)` where `resolved` lists the sizes
of the waiters resolved, in resolution order. -/
def drainWaiters (available : Int) (waiters : List Int) : Int × List Int × List Int :=
  match waiters with
  | [] => (available, [], [])
  | w :: rest =>
    if available > 0 then
      if available ≥ w then
        let r := drainWaiters (available - w) rest
        (r.1, r.2.1, w :: r.2.2)
      else
        (available, w :: rest, [])
    else
      (available, w :: rest, [])

/-- Model of `FlowControlWindow.consume` (src/http2/flow-control.ts:34-48).
`none` models the throw on a cancelled window; a consume that cannot be
served immediately pushes a waiter (the returned promise stays pending). -/
def FlowControlWindow.consume (s : FlowControlWindow) (size : Int) :
    Option FlowControlWindow :=
  if size ≤ 0 then some s
  else if s.cancelled then none
  else if s.available ≥ size then some { s with available := s.available - size }
  else some { s with waiters := s.waiters ++ [size] }

/-- Model of `FlowControlWindow.update` (src/http2/flow-control.ts:55-65).
The increment is added to `available` first; only then is the 2^31-1 bound
checked.  The boolean result is the "threw" flag: when it is `true` the
returned state keeps the already-applied (overflowed) `available` and the
waiter queue untouched — the source throws before `drainWaiters` runs. -/
def FlowControlWindow.update (s : FlowControlWindow) (increment : Int) :
    FlowControlWindow × Bool :=
  let afterAdd := s.available + increment
  if afterAdd > 0x7fffffff then
    ({ s with available := afterAdd }, true)
  else
    let d := drainWaiters afterAdd s.waiters
    ({ s with available := d.1, waiters := d.2.1 }, false)

/-- An interleaving step applied to a `FlowControlWindow`. -/
inductive FlowOp where
  | consume (size : Int)
  | update (increment : Int)
deriving Repr, DecidableEq

/-- Run a sequence of `consume`/`update` calls from a given window state;
`none` when some call throws (cancelled consume or window overflow). -/
def runFlowOps : List FlowOp → FlowControlWindow → Option FlowControlWindow
  | [], s => some s
  | FlowOp.consume k :: rest, s => (s.consume k).bind (runFlowOps rest)
  | FlowOp.update u :: rest, s =>
    let r := s.update u
    if r.2 then none else runFlowOps rest r.1

/-- Total of all `consume` sizes in an op sequence. -/
def sumConsumes : List FlowOp → Int
  | [] => 0
  | FlowOp.consume k :: rest => k + sumConsumes rest
  | FlowOp.update _ :: rest => sumConsumes rest

/-- Total of all `update` increments in an op sequence. -/
def sumUpdates : List FlowOp → Int
  | [] => 0
  | FlowOp.consume _ :: rest => sumUpdates rest
  | FlowOp.update u :: rest => u + sumUpdates rest

/-- A freshly constructed `FlowControlWindow(initialSize)`. -/
def initWindow (n : Int) : FlowControlWindow := ⟨n, [], false⟩

/-! ## HTTP/2 frame codec — src/http2/framer.ts and src/http2/parser.ts

Bytes are `List Nat` (every element < 256).  JavaScript bit extraction on
non-negative integers is written arithmetically: `(x >> k) & 0xff` is
`x / 2 ^ k % 256` and `(x >> 24) & 0x7f` is `x / 2 ^ 24 % 128`; byte
recombination `(b0 << 16) | (b1 << 8) | b2` on disjoint byte positions is
`b0 * 2 ^ 16 + b1 * 2 ^ 8 + b2`.  The source parser keeps its pending bytes
as a chunk queue consumed from the front (`read`); the queue is modelled by
the concatenated byte list. -/

/-- An HTTP/2 frame (src/http2/framer.ts, `interface Frame`). -/
structure Frame where
  type : Nat
  flags : Nat
  streamId : Nat
  payload : List Nat
deriving Repr, DecidableEq

/-- Model of `encodeFrame` (src/http2/framer.ts:29-54): 9-byte header — 24-bit
payload length, type, flags, 31-bit stream id with the R bit forced to 0 —
followed by the payload.  Buffer element assignment truncates to a byte,
hence the `% 256` on `type` and `flags`. -/
def encodeFrame (f : Frame) : List Nat :=
  f.payload.length / 2 ^ 16 % 256 ::
  f.payload.length / 2 ^ 8 % 256 ::
  f.payload.length % 256 ::
  f.type % 256 ::
  f.flags % 256 ::
  f.streamId / 2 ^ 24 % 128 ::
  f.streamId / 2 ^ 16 % 256 ::
  f.streamId / 2 ^ 8 % 256 ::
  f.streamId % 256 ::
  f.payload

/-- Model of `FrameParser` internal state (src/http2/parser.ts): waiting for a 9-byte
frame header, waiting for a frame body (header fields parsed), or errored
after an oversized frame. -/
inductive ParserMode where
  | frameHead
  | frameBody (length type flags streamId : Nat)
  | errored
deriving Repr, DecidableEq

/-- Termination rank: a body step may consume zero bytes before returning to
the head state, so body ranks above head. -/
def ParserMode.rank : ParserMode → Nat
  | .frameBody _ _ _ _ => 1
  | _ => 0

/-- Model of `FrameParser.process` (src/http2/parser.ts:59-101): loop extracting
frames from the buffered bytes.  In the head state it needs 9 bytes, parses
the header and rejects `length > maxFrameSize`; in the body state it needs
`length` bytes and emits the frame.  Returns the final mode, the leftover
buffered bytes and the frames emitted, in order. -/
def processFrames (maxFS : Nat) (m : ParserMode) (buf : List Nat) :
    ParserMode × List Nat × List Frame :=
  match m with
  | .errored => (.errored, buf, [])
  | .frameHead =>
    match buf with
    | b0 :: b1 :: b2 :: b3 :: b4 :: b5 :: b6 :: b7 :: b8 :: rest =>
      let len := b0 * 2 ^ 16 + b1 * 2 ^ 8 + b2
      if len > maxFS then (.errored, rest, [])
      else
        processFrames maxFS
          (.frameBody len b3 b4 (b5 % 128 * 2 ^ 24 + b6 * 2 ^ 16 + b7 * 2 ^ 8 + b8)) rest
    | _ => (.frameHead, buf, [])
  | .frameBody len ty fl sid =>
    if h : buf.length < len then (.frameBody len ty fl sid, buf, [])
    else
      let r := processFrames maxFS .frameHead (buf.drop len)
      (r.1, r.2.1, ⟨ty, fl, sid, buf.take len⟩ :: r.2.2)
termination_by buf.length + m.rank
decreasing_by
  · simp only [List.length_cons, ParserMode.rank]
    omega
  · simp only [List.length_drop, ParserMode.rank]
    omega

/-- Model of `FrameParser` observable state: mode, buffered bytes (chunk queue,
concatenated) and the configured max frame size. -/
structure FrameParser where
  mode : ParserMode
  buffer : List Nat
  maxFrameSize : Nat
deriving Repr, DecidableEq

/-- A freshly constructed `FrameParser(maxFrameSize)`. -/
def FrameParser.init (maxFS : Nat) : FrameParser := ⟨.frameHead, [], maxFS⟩

/-- Model of `FrameParser.feed` (src/http2/parser.ts:48-57): ignore input once
errored, return early on an empty chunk, otherwise append the chunk to the
buffer and run `process`.  Returns the parser and the frames emitted by this
feed. -/
def FrameParser.feed (p : FrameParser) (data : List Nat) : FrameParser × List Frame :=
  if p.mode = ParserMode.errored then (p, [])
  else if data = [] then (p, [])
  else
    let r := processFrames p.maxFrameSize p.mode (p.buffer ++ data)
    (⟨r.1, r.2.1, p.maxFrameSize⟩, r.2.2)

/-- Feed a sequence of chunks, concatenating the emitted frames. -/
def FrameParser.feedAll (p : FrameParser) : List (List Nat) → FrameParser × List Frame
  | [] => (p, [])
  | c :: cs =>
    let r := p.feed c
    let r2 := r.1.feedAll cs
    (r2.1, r.2 ++ r2.2)

/-- Concatenation of a list of byte chunks. -/
def concatChunks (cs : List (List Nat)) : List Nat := cs.foldr (· ++ ·) []

/-- Validity of a frame for a parser configured with `maxFS`: byte-sized
type and flags, a 31-bit stream id, byte values in the payload, and a
payload that fits the configured max frame size. -/
def Frame.Valid (maxFS : Nat) (f : Frame) : Prop :=
  f.type < 256 ∧ f.flags < 256 ∧ f.streamId < 2 ^ 31 ∧
    f.payload.length ≤ maxFS ∧ ∀ b ∈ f.payload, b < 256

instance (maxFS : Nat) (f : Frame) : Decidable (f.Valid maxFS) := by
  unfold Frame.Valid
  infer_instance

/-! ## Retry delay — src/client.ts `calculateRetryDelay`

The function consults `Number(retryAfterHeader)` and
`Date.parse(retryAfterHeader)`, both host primitives; their results are
modelled as inputs (`none` stands for `NaN`).  JavaScript numbers are
modelled as `ℚ` (`Retry-After` seconds may be fractional, dates and delays
are millisecond counts). -/

/-- Host-parse results for a present (non-empty, hence truthy) retry-after
header value: `numVal` is `Number(header)` and `dateVal` is
`Date.parse(header)` in milliseconds; `none` stands for `NaN`. -/
structure RetryAfterValue where
  numVal : Option ℚ
  dateVal : Option ℚ

/-- The `Date.parse` arm of `calculateRetryDelay` (src/client.ts:1658-1662):
`ms = date - now`, used only when strictly positive; `fallback` is the
exponential-backoff value computed by the caller's final line. -/
def retryDateBranch (v : RetryAfterValue) (now fallback maxDelay : ℚ) : ℚ :=
  match v.dateVal with
  | some date => if date - now > 0 then min (date - now) maxDelay else fallback
  | none => fallback

/-- Model of `calculateRetryDelay` (src/client.ts:1649-1666).  `header = none` models
an absent or empty (falsy) `retry-after` header; `now` is `Date.now()`. -/
def calculateRetryDelay (header : Option RetryAfterValue) (now : ℚ)
    (attempt : Nat) (baseDelay maxDelay : ℚ) : ℚ :=
  let fallback := min (baseDelay * 2 ^ attempt) maxDelay
  match header with
  | none => fallback
  | some v =>
    match v.numVal with
    | some seconds =>
      if seconds > 0 then min (seconds * 1000) maxDelay
      else retryDateBranch v now fallback maxDelay
    | none => retryDateBranch v now fallback maxDelay

/-! ## NAT64 address construction — src/socket/nat64.ts `ipv4ToNAT64`

`parseInt(p, 10)` is modelled by `jsParseInt 10` (`none` stands for `NaN`);
`NaN < 0` and `NaN > 255` are both false in JavaScript, so a `none` result
passes the range guard, and `NaN.toString(16)` is the string `"NaN"`, which
`padStart(2, "0")` leaves unchanged. -/

/-- JavaScript `String.prototype.split` with a one-character separator,
processed left to right (structural, so concrete calls evaluate by `rfl`):
`"".split(".")` is `[""]`, and separators at either end produce empty
segments, as in JavaScript. -/
def splitChar (sep : Char) : List Char → List (List Char)
  | [] => [[]]
  | c :: rest =>
    let r := splitChar sep rest
    if c = sep then [] :: r
    else
      match r with
      | h :: t => (c :: h) :: t
      | [] => [[c]]

/-- Model of `s.split(sep)` as a list of strings. -/
def jsSplit (sep : Char) (s : String) : List String :=
  (splitChar sep s.data).map (fun cs => String.mk cs)

/-- JavaScript whitespace accepted by `parseInt` before the number. -/
def isJsSpace (c : Char) : Bool :=
  c = ' ' ∨ c = '\t' ∨ c = '\n' ∨ c = '\r' ∨ c = '\x0b' ∨ c = '\x0c'

/-- Value of a digit character in bases up to 36, as `parseInt` reads it. -/
def digitVal (c : Char) : Option Nat :=
  if '0' ≤ c ∧ c ≤ '9' then some (c.toNat - '0'.toNat)
  else if 'a' ≤ c ∧ c ≤ 'z' then some (c.toNat - 'a'.toNat + 10)
  else if 'A' ≤ c ∧ c ≤ 'Z' then some (c.toNat - 'A'.toNat + 10)
  else none

/-- Is `c` a digit of the given radix? -/
def isRadixDigit (radix : Nat) (c : Char) : Bool :=
  match digitVal c with
  | some v => v < radix
  | none => false

/-- JavaScript `parseInt(s, radix)`: skip leading whitespace, an optional
sign, then the longest prefix of radix digits; `none` (`NaN`) when that
prefix is empty.  (The radix-16 `0x` prefix special case never arises in
this code base and is not modelled.) -/
def jsParseInt (radix : Nat) (s : String) : Option Int :=
  let cs := s.data.dropWhile isJsSpace
  let sign : Int := match cs with
    | '-' :: _ => -1
    | _ => 1
  let cs := match cs with
    | '-' :: rest => rest
    | '+' :: rest => rest
    | _ => cs
  let ds := cs.takeWhile (isRadixDigit radix)
  if ds = [] then none
  else some (sign * (ds.foldl (fun acc c => acc * radix + ((digitVal c).getD 0)) 0 : Nat))

/-- Hexadecimal digit character (lowercase, as `Number.prototype.toString(16)`). -/
def hexChar (n : Nat) : Char :=
  if n < 10 then Char.ofNat ('0'.toNat + n) else Char.ofNat ('a'.toNat + n - 10)

/-- Model of `n.toString(16)` for the octet values 0–255 reachable past the range
guard: one or two hex digits. -/
def natToHex (n : Nat) : String :=
  if n < 16 then String.mk [hexChar n]
  else String.mk [hexChar (n / 16), hexChar (n % 16)]

/-- Model of `String.prototype.padStart(2, "0")`: prepend `"0"` when shorter than 2
characters (the three-character `"NaN"` is left unchanged). -/
def padStart2 (s : String) : String :=
  if s.length < 2 then "0" ++ s else s

/-- One element of the `parts.map(...)` body of `ipv4ToNAT64`
(src/socket/nat64.ts:93-97): `const n = parseInt(p, 10); if (n < 0 || n >
255) throw ...; return n.toString(16).padStart(2, "0")`.  When `parseInt`
yields `NaN`, both comparisons are false and the result is `"NaN"`. -/
def octetToHex (p : String) : Except String String :=
  match jsParseInt 10 p with
  | none => Except.ok "NaN"
  | some v =>
    if v < 0 ∨ v > 255 then Except.error ("Invalid IPv4 octet: " ++ p)
    else Except.ok (padStart2 (natToHex v.toNat))

/-- Model of `Array.prototype.map` with a callback that can throw: the first throw
propagates. -/
def mapExcept (f : String → Except String String) :
    List String → Except String (List String)
  | [] => Except.ok []
  | x :: xs =>
    match f x with
    | Except.error e => Except.error e
    | Except.ok y =>
      match mapExcept f xs with
      | Except.error e => Except.error e
      | Except.ok ys => Except.ok (y :: ys)

/-- Model of `ipv4ToNAT64` (src/socket/nat64.ts:90-102): split on `"."`, require four
parts, map every part through the octet guard and hex rendering, then
assemble `[<prefix><hex0><hex1>:<hex2><hex3>]`. -/
def ipv4ToNAT64 (ipv4 : String) (pfx : String) : Except String String :=
  let parts := jsSplit '.' ipv4
  if parts.length ≠ 4 then Except.error ("Invalid IPv4: " ++ ipv4)
  else
    match mapExcept octetToHex parts with
    | Except.error e => Except.error e
    | Except.ok hex =>
      Except.ok ("[" ++ pfx ++ hex.getD 0 "" ++ hex.getD 1 "" ++ ":" ++
        hex.getD 2 "" ++ hex.getD 3 "" ++ "]")

/-! ## DNS-over-HTTPS CDN detection — src/socket/nat64.ts
`resolveAndCheckCloudflare`

The embedding follows the current revision of the module, the one
`src/client.ts` is typed against (its `CfCheckResult` has no `ipv6` field)
and the one the repository's nat64 unit test asserts ("Only A query, no
AAAA"): `resolveAndCheckCloudflare` performs a single `dohQuery(hostname,
"A", …)`.  (A superseded revision of the module that still issued parallel
A and AAAA fetches is also present in the tree.)  The DoH network is an
oracle from `(name, record type)` to the parsed `dns-json` body (`none`
models a non-ok response or a fetch error, which `dohQuery` turns into
`null`); each function returns the list of queries it issued alongside its
result.  Wall-clock `dnsMs` is not modelled. -/

/-- One element of the `Answer` array of a `dns-json` response. -/
structure DnsAnswerRec where
  type : Nat
  data : String
  TTL : Nat

/-- A parsed `dns-json` body; `Answer` is optional. -/
structure DnsJsonResponse where
  Answer : Option (List DnsAnswerRec)

/-- Model of `dohQuery` (src/socket/nat64.ts): one `GET
https://1.1.1.1/dns-query?name=<host>&type=<ty>` with `Accept:
application/dns-json` under a 3-second guard, returning `null` on a non-ok
status or a thrown fetch.  The second component is the query trace. -/
def dohQuery (net : String → String → Option DnsJsonResponse)
    (name ty : String) : Option DnsJsonResponse × List (String × String) :=
  (net name ty, [(name, ty)])

/-- Model of `Number(s)` for the plain decimal-digit strings this module feeds it
(dotted-quad octets); `none` is `NaN`, and `Number("")` is 0. -/
def jsNumberNat (s : String) : Option Nat :=
  if s.data = [] then some 0
  else if s.data.all (fun c => '0' ≤ c ∧ c ≤ '9') then
    some (s.data.foldl (fun acc c => acc * 10 + (c.toNat - '0'.toNat)) 0)
  else none

/-- Model of `ipv4ToUint32` (src/socket/nat64.ts): `((p0 << 24) | (p1 << 16) |
(p2 << 8) | p3) >>> 0`; a `NaN` part coerces to 0 in the bit operations and
`>>> 0` reduces the result modulo 2^32. -/
def ipv4ToUint32 (ip : String) : Nat :=
  let p := (jsSplit '.' ip).map (fun s => (jsNumberNat s).getD 0)
  (p.getD 0 0 * 2 ^ 24 + p.getD 1 0 * 2 ^ 16 + p.getD 2 0 * 2 ^ 8 + p.getD 3 0) % 2 ^ 32

/-- Model of `CF_IPV4_RANGES` (src/socket/nat64.ts / cloudflare-ranges):
`[start, end]` uint32 pairs built from the published Cloudflare blocks. -/
def CF_IPV4_RANGES : List (Nat × Nat) :=
  [(ipv4ToUint32 "173.245.48.0", ipv4ToUint32 "173.245.63.255"),
   (ipv4ToUint32 "103.21.244.0", ipv4ToUint32 "103.21.247.255"),
   (ipv4ToUint32 "103.22.200.0", ipv4ToUint32 "103.22.203.255"),
   (ipv4ToUint32 "103.31.4.0", ipv4ToUint32 "103.31.7.255"),
   (ipv4ToUint32 "141.101.64.0", ipv4ToUint32 "141.101.127.255"),
   (ipv4ToUint32 "108.162.192.0", ipv4ToUint32 "108.162.255.255"),
   (ipv4ToUint32 "190.93.240.0", ipv4ToUint32 "190.93.255.255"),
   (ipv4ToUint32 "188.114.96.0", ipv4ToUint32 "188.114.111.255"),
   (ipv4ToUint32 "197.234.240.0", ipv4ToUint32 "197.234.243.255"),
   (ipv4ToUint32 "198.41.128.0", ipv4ToUint32 "198.41.255.255"),
   (ipv4ToUint32 "162.158.0.0", ipv4ToUint32 "162.159.255.255"),
   (ipv4ToUint32 "104.16.0.0", ipv4ToUint32 "104.27.255.255"),
   (ipv4ToUint32 "172.64.0.0", ipv4ToUint32 "172.71.255.255"),
   (ipv4ToUint32 "131.0.72.0", ipv4ToUint32 "131.0.75.255")]

/-- Model of `isCloudflareIPv4` (src/socket/nat64.ts): range membership of the
uint32 value. -/
def isCloudflareIPv4 (ipv4 : String) : Bool :=
  let num := ipv4ToUint32 ipv4
  CF_IPV4_RANGES.any (fun r => r.1 ≤ num ∧ num ≤ r.2)

/-- Model of `CfCheckResult` (src/socket/nat64.ts, current revision): CF flag,
resolved IPv4 and A-record TTL (0 when no record). -/
structure CfCheckResult where
  isCf : Bool
  ipv4 : Option String
  ttl : Nat
deriving Repr, DecidableEq

/-- Model of `resolveAndCheckCloudflare` (src/socket/nat64.ts): one A-record
`dohQuery`, then the first `type == 1` answer gives `ipv4`/`ttl` and the CF
range check.  The second component is the DoH query trace. -/
def resolveAndCheckCloudflare (net : String → String → Option DnsJsonResponse)
    (hostname : String) : CfCheckResult × List (String × String) :=
  let q := dohQuery net hostname "A"
  let result : CfCheckResult :=
    match q.1 with
    | none => ⟨false, none, 0⟩
    | some aData =>
      match (aData.Answer.getD []).find? (fun r => r.type == 1) with
      | none => ⟨false, none, 0⟩
      | some aRecord => ⟨isCloudflareIPv4 aRecord.data, some aRecord.data, aRecord.TTL⟩
  (result, q.2)

/-! ## Redirect chain header stripping — src/client.ts `doRequest`

`currentHeaders` is the normalized (lowercase-keyed) mutable header record
threaded through the redirect loop; it is modelled as an association list
with JavaScript object semantics (`delete h[k]` removes the key, `h[k] = v`
replaces it).  One `redirectStep` is the mutation the loop body applies to
`currentHeaders` when it follows a 3xx hop: the 301/302/303 body-header
deletions, the cross-origin strip, and the `host` update
(src/client.ts:424-447). -/

/-- Model of `ParsedUrl` (src/utils/url.ts). -/
structure ParsedUrl where
  protocol : String
  hostname : String
  port : Nat
  path : String
deriving Repr, DecidableEq

/-- Model of `isOriginChange` (src/client.ts:1423-1425): hostname, port or scheme
differs. -/
def isOriginChange (a b : ParsedUrl) : Bool :=
  a.hostname ≠ b.hostname ∨ a.port ≠ b.port ∨ a.protocol ≠ b.protocol

/-- Header record lookup (`h[k]`). -/
def getHeader (k : String) (h : List (String × String)) : Option String :=
  (h.find? (fun p => p.1 = k)).map (fun p => p.2)

/-- Model of `delete h[k]`. -/
def deleteHeader (k : String) (h : List (String × String)) :
    List (String × String) :=
  h.filter (fun p => p.1 ≠ k)

/-- Model of `h[k] = v` (key replaced if present). -/
def setHeader (k v : String) (h : List (String × String)) :
    List (String × String) :=
  (k, v) :: deleteHeader k h

/-- One followed redirect hop (src/client.ts:424-447): on 301/302/303 the
body headers are deleted (method becomes GET), on a cross-origin hop
`authorization`, `cookie` and `proxy-authorization` are deleted, and `host`
is set to the new hostname. -/
def redirectStep (status : Nat) (fromUrl toUrl : ParsedUrl)
    (h : List (String × String)) : List (String × String) :=
  let h1 :=
    if status = 301 ∨ status = 302 ∨ status = 303 then
      deleteHeader "content-encoding"
        (deleteHeader "content-length" (deleteHeader "content-type" h))
    else h
  let h2 :=
    if isOriginChange fromUrl toUrl then
      deleteHeader "proxy-authorization"
        (deleteHeader "cookie" (deleteHeader "authorization" h1))
    else h1
  setHeader "host" toUrl.hostname h2

/-- Follow a redirect chain: from the current URL, apply each hop's
`redirectStep` in order.  Each hop carries the redirect status and the
resolved target URL. -/
def followRedirects (u : ParsedUrl) (hops : List (Nat × ParsedUrl))
    (h : List (String × String)) : List (String × String) :=
  match hops with
  | [] => h
  | (st, v) :: rest => followRedirects v rest (redirectStep st u v h)

/-- Headers of the `j`-th request of the chain (request 0 is the original,
request `j` follows the first `j` hops). -/
def headersAt (u : ParsedUrl) (hops : List (Nat × ParsedUrl))
    (h : List (String × String)) (j : Nat) : List (String × String) :=
  followRedirects u (hops.take j) h

/-- URL of the `i`-th request of the chain. -/
def chainUrl (u : ParsedUrl) (hops : List (Nat × ParsedUrl)) (i : Nat) :
    ParsedUrl :=
  (u :: hops.map Prod.snd).getD i u

/-- The three sensitive headers of the cross-origin strip. -/
def sensitiveHeaders : List String :=
  ["authorization", "cookie", "proxy-authorization"]

/-! ## HPACK decoding — src/http2/hpack.ts `HpackDecoder.decode` and
src/http2/connection.ts `Http2Connection.processHeaderBlock`

`HpackDecoder.decode` drives the hpack.js bit-level primitives
(`decodeBit`/`decodeInt`/`decodeStr`); a header block is modelled as the
sequence of wire fields those primitives distinguish — indexed field,
literal with/without incremental indexing, dynamic-table-size update.  The
decode loop itself (the `seenNonUpdate` ordering check, the size-update
bound check against the decoder's configured table size, and the dynamic
table maintenance) is translated from the source. -/

/-- One HPACK wire field as the hpack.js primitives parse it (RFC 7541
Section 6): `nameIdx = 0` means a literal name follows. -/
inductive HField where
  | indexed (idx : Nat)
  | literalInc (nameIdx : Nat) (nameLit : String) (value : String)
  | literalNoInc (neverIndexed : Bool) (nameIdx : Nat) (nameLit : String) (value : String)
  | sizeUpdate (size : Nat)
deriving Repr, DecidableEq

/-- Is the field a dynamic-table-size update? -/
def HField.isSizeUpdate : HField → Bool
  | .sizeUpdate _ => true
  | _ => false

/-- The RFC 7541 Appendix A static table (entries 1–61), as hpack.js ships
it. -/
def staticTable : List (String × String) :=
  [(":authority", ""), (":method", "GET"), (":method", "POST"),
   (":path", "/"), (":path", "/index.html"), (":scheme", "http"),
   (":scheme", "https"), (":status", "200"), (":status", "204"),
   (":status", "206"), (":status", "304"), (":status", "400"),
   (":status", "404"), (":status", "500"), ("accept-charset", ""),
   ("accept-encoding", "gzip, deflate"), ("accept-language", ""),
   ("accept-ranges", ""), ("accept", ""), ("access-control-allow-origin", ""),
   ("age", ""), ("allow", ""), ("authorization", ""), ("cache-control", ""),
   ("content-disposition", ""), ("content-encoding", ""),
   ("content-language", ""), ("content-length", ""), ("content-location", ""),
   ("content-range", ""), ("content-type", ""), ("cookie", ""), ("date", ""),
   ("etag", ""), ("expect", ""), ("expires", ""), ("from", ""), ("host", ""),
   ("if-match", ""), ("if-modified-since", ""), ("if-none-match", ""),
   ("if-range", ""), ("if-unmodified-since", ""), ("last-modified", ""),
   ("link", ""), ("location", ""), ("max-forwards", ""),
   ("proxy-authenticate", ""), ("proxy-authorization", ""), ("range", ""),
   ("referer", ""), ("refresh", ""), ("retry-after", ""), ("server", ""),
   ("set-cookie", ""), ("strict-transport-security", ""),
   ("transfer-encoding", ""), ("user-agent", ""), ("vary", ""), ("via", ""),
   ("www-authenticate", "")]

/-- RFC 7541 Section 4.1 size of one table entry: name + value + 32. -/
def entrySize (e : String × String) : Nat :=
  e.1.length + e.2.length + 32

/-- HPACK dynamic table state (hpack.js `table`): most recent entry first,
current octet `size`, effective `maxSize`. -/
structure HpackTable where
  entries : List (String × String)
  size : Nat
  maxSize : Nat
deriving Repr, DecidableEq

/-- Evict entries from the oldest end of an oldest-first list until the
size fits `limit`. -/
def evictOldestFirst (limit : Nat) :
    List (String × String) → Nat → List (String × String) × Nat
  | [], size => ([], size)
  | oldest :: rest, size =>
    if size ≤ limit then (oldest :: rest, size)
    else evictOldestFirst limit rest (size - entrySize oldest)

/-- Evict oldest entries (the back of the newest-first list) until the size
fits `limit`. -/
def evictEntries (entries : List (String × String)) (size limit : Nat) :
    List (String × String) × Nat :=
  let r := evictOldestFirst limit entries.reverse size
  (r.1.reverse, r.2)

/-- Model of `table.updateSize` — set the new maximum and evict to fit. -/
def HpackTable.updateSize (t : HpackTable) (newMax : Nat) : HpackTable :=
  let r := evictEntries t.entries t.size newMax
  ⟨r.1, r.2, newMax⟩

/-- Model of `table.add` — evict to make room, then prepend (an entry larger than
the whole table empties it and is not inserted, RFC 7541 Section 4.4). -/
def HpackTable.add (t : HpackTable) (name value : String) : HpackTable :=
  let need := entrySize (name, value)
  if need > t.maxSize then ⟨[], 0, t.maxSize⟩
  else
    let r := evictEntries t.entries (t.size + need) t.maxSize
    ⟨(name, value) :: r.1, r.2, t.maxSize⟩

/-- Model of `table.lookup` — 1-based: static entries 1–61, then dynamic entries;
`none` models the hpack.js throw on an invalid index. -/
def HpackTable.lookup (t : HpackTable) (idx : Nat) : Option (String × String) :=
  if idx = 0 then none
  else if idx ≤ 61 then staticTable.get? (idx - 1)
  else t.entries.get? (idx - 62)

/-- The `while (!dec.isEmpty())` loop of `HpackDecoder.decode`
(src/http2/hpack.ts:158-189): `limit` is the decoder's configured
`tableSize`; `seenNonUpdate` enforces RFC 7541 Section 4.2 — a
dynamic-table-size update after any indexed or literal field is an error,
as is an update above `limit`.  Errors model the thrown exceptions
(including the hpack.js lookup throw on a bad index). -/
def decodeFields (limit : Nat) :
    List HField → HpackTable → Bool → Except String (List (String × String))
  | [], _, _ => Except.ok []
  | HField.indexed idx :: rest, t, _ =>
    match t.lookup idx with
    | none => Except.error "Field not found"
    | some e => (decodeFields limit rest t true).map (fun hs => (e.1, e.2) :: hs)
  | HField.sizeUpdate size :: rest, t, seenNonUpdate =>
    if seenNonUpdate then
      Except.error "HPACK dynamic table size update must occur at the start of a header block"
    else if size > limit then
      Except.error "HPACK dynamic table size update exceeds limit"
    else decodeFields limit rest (t.updateSize size) seenNonUpdate
  | HField.literalNoInc _ nameIdx nameLit value :: rest, t, _ =>
    match (if nameIdx = 0 then some (nameLit, "") else t.lookup nameIdx) with
    | none => Except.error "Field not found"
    | some e => (decodeFields limit rest t true).map (fun hs => (e.1, value) :: hs)
  | HField.literalInc nameIdx nameLit value :: rest, t, _ =>
    match (if nameIdx = 0 then some (nameLit, "") else t.lookup nameIdx) with
    | none => Except.error "Field not found"
    | some e =>
      (decodeFields limit rest (t.add e.1 value) true).map (fun hs => (e.1, value) :: hs)

/-- Model of `HpackDecoder.decode` on a whole block: fresh hpack.js table of the
configured size, `seenNonUpdate` initially false. -/
def hpackDecode (limit : Nat) (fields : List HField) :
    Except String (List (String × String)) :=
  decodeFields limit fields ⟨[], 0, limit⟩ false

/-- HTTP/2 COMPRESSION_ERROR code (RFC 7540 Section 7). -/
def COMPRESSION_ERROR : Nat := 9

/-- HTTP/2 STREAM_CLOSED error code. -/
def STREAM_CLOSED : Nat := 5

/-- Outcome of `Http2Connection.processHeaderBlock`. -/
inductive HeaderBlockOutcome where
  | ignored
  | rstStream (code : Nat)
  | connectionError (code : Nat)
  | headers (hs : List (String × String))
deriving Repr, DecidableEq

/-- Model of `Http2Connection.processHeaderBlock` (src/http2/connection.ts:576-597):
unknown stream → ignored; HEADERS on a half-closed (remote) or closed
stream → RST_STREAM STREAM_CLOSED; any HPACK decode failure → GOAWAY
COMPRESSION_ERROR (connection error). -/
def processHeaderBlock (streamExists : Bool) (streamState : String)
    (limit : Nat) (fields : List HField) : HeaderBlockOutcome :=
  if !streamExists then .ignored
  else if streamState = "half-closed-remote" ∨ streamState = "closed" then
    .rstStream STREAM_CLOSED
  else
    match hpackDecode limit fields with
    | Except.error _ => .connectionError COMPRESSION_ERROR
    | Except.ok hs => .headers hs

/-! ## HTTP/1.1 response body framing and EOF — src/http1/parser.ts

`parseResponseHead` (status line, headers, body-mode determination) and the
chunked decoder (src/http1/chunked.ts) are translated at byte level (bytes
as `List Nat`, `latin1`/`ascii` decoding as character mapping).  The body
phase of `readResponse` — the code that runs once the head has resolved:
`onData`'s else-branch, `processBodyData`, `onEnd`, `closeBody`,
`cleanup` — is a state machine over socket events.  Socket `data` and `end`
events are modelled; the orthogonal paths that do error the body stream
(socket `error`, abort, body timeout) are represented by the `errored`
terminal state, which the modelled events can then be shown never to
produce.  A chunked-decoder throw escapes the `data` listener in the source
(it does not error the body stream); it is the distinct `crashed`
terminal. -/

/-- Does `needle` occur at the head of the list? -/
def listStartsWith [DecidableEq α] : List α → List α → Bool
  | _, [] => true
  | [], _ :: _ => false
  | x :: xs, y :: ys => x = y ∧ listStartsWith xs ys

/-- Model of `bufferIndexOf` (src/http1/parser.ts:110-126): first index where the
needle occurs in full; `none` is the source's `-1`. -/
def indexOfSub [DecidableEq α] : List α → List α → Option Nat
  | [], needle => if needle = [] then some 0 else none
  | x :: xs, needle =>
    if listStartsWith (x :: xs) needle then some 0
    else (indexOfSub xs needle).map (fun i => i + 1)

/-- Model of `String.prototype.includes`. -/
def containsList [DecidableEq α] (haystack needle : List α) : Bool :=
  (indexOfSub haystack needle).isSome

/-- Model of `buf.toString("latin1")`: each byte is one character. -/
def decodeLatin1 (bytes : List Nat) : String :=
  String.mk (bytes.map (fun b => Char.ofNat b))

/-- Model of `buf.toString("ascii")`: Node masks the high bit. -/
def decodeAscii (bytes : List Nat) : String :=
  String.mk (bytes.map (fun b => Char.ofNat (b % 128)))

/-- Model of `String.prototype.trim` on a character list. -/
def charsTrim (cs : List Char) : List Char :=
  ((cs.dropWhile isJsSpace).reverse.dropWhile isJsSpace).reverse

/-- Model of `String.prototype.toLowerCase` for the ASCII header names that occur. -/
def asciiLower (cs : List Char) : List Char :=
  cs.map (fun c => if 'A' ≤ c ∧ c ≤ 'Z' then Char.ofNat (c.toNat + 32) else c)

/-- Model of `headSection.split("\r\n")`, left to right. -/
def splitCRLF : List Char → List (List Char)
  | '\r' :: '\n' :: rest => [] :: splitCRLF rest
  | c :: rest =>
    match splitCRLF rest with
    | h :: t => (c :: h) :: t
    | [] => [[c]]
  | [] => [[]]

/-- Model of `ParsedResponse.bodyMode` (src/http1/parser.ts:15). -/
inductive BodyMode where
  | contentLength
  | chunked
  | close
deriving Repr, DecidableEq

/-- Model of `ParsedResponse` (src/http1/parser.ts:7-18). -/
structure ParsedResponse where
  httpVersion : String
  status : Nat
  statusText : String
  headers : List (String × String)
  rawHeaders : List (String × String)
  bodyMode : BodyMode
  contentLength : Nat
deriving Repr, DecidableEq

/-- Replace the value stored under an existing key. -/
def updateHeaderValue (k v : String) (h : List (String × String)) :
    List (String × String) :=
  h.map (fun p => if p.1 = k then (k, v) else p)

/-- One header line of the head section (src/http1/parser.ts:59-75): skip
lines without a colon, trim and lowercase the name, record the raw pair,
and merge repeats — comma-joined, newline-joined for `set-cookie`; a falsy
(empty) stored value is overwritten, as `if (headers[key])` does. -/
def addHeaderLine (acc : List (String × String) × List (String × String))
    (line : List Char) : List (String × String) × List (String × String) :=
  match List.findIdx? (fun c => c = ':') line with
  | none => acc
  | some colonIdx =>
    let key := String.mk (asciiLower (charsTrim (line.take colonIdx)))
    let value := String.mk (charsTrim (line.drop (colonIdx + 1)))
    let rawHeaders := acc.2 ++ [(key, value)]
    let headers :=
      match getHeader key acc.1 with
      | some old =>
        if old ≠ "" then
          updateHeaderValue key
            (old ++ (if key = "set-cookie" then "\n" else ", ") ++ value) acc.1
        else updateHeaderValue key value acc.1
      | none => acc.1 ++ [(key, value)]
    (headers, rawHeaders)

/-- Model of `Transfer-Encoding` absent or falsy: content-length framing when a
truthy `Content-Length` parses to a non-negative number, otherwise
close-delimited (src/http1/parser.ts:86-93). -/
def contentLengthMode (headers : List (String × String)) : BodyMode × Nat :=
  match getHeader "content-length" headers with
  | some clStr =>
    if clStr ≠ "" then
      match jsParseInt 10 clStr with
      | some cl =>
        if cl ≥ 0 then (BodyMode.contentLength, cl.toNat) else (BodyMode.close, 0)
      | none => (BodyMode.close, 0)
    else (BodyMode.close, 0)
  | none => (BodyMode.close, 0)

/-- Model of `parseResponseHead` (src/http1/parser.ts:26-105): find the double CRLF,
parse the status line (`HTTP/1.1 200 OK`), parse and merge the headers, and
determine the body mode — chunked when a truthy `Transfer-Encoding`
includes `"chunked"`, close-delimited for other transfer encodings, else
the content-length rules.  Returns the response and `bodyStart`. -/
def parseResponseHead (data : List Nat) : Option (ParsedResponse × Nat) :=
  match indexOfSub data [13, 10, 13, 10] with
  | none => none
  | some headerEnd =>
    let headSection := decodeLatin1 (data.take headerEnd)
    let bodyStart := headerEnd + 4
    let lines := splitCRLF headSection.data
    let statusLine := lines.getD 0 []
    match List.findIdx? (fun c => c = ' ') statusLine with
    | none => none
    | some firstSpace =>
      let httpVersion := String.mk (statusLine.take firstSpace)
      let rest := statusLine.drop (firstSpace + 1)
      let secondSpace := List.findIdx? (fun c => c = ' ') rest
      let statusStr :=
        match secondSpace with
        | none => rest
        | some i => rest.take i
      match jsParseInt 10 (String.mk statusStr) with
      | none => none
      | some status =>
        if status < 100 ∨ status > 999 then none
        else
          let statusText :=
            match secondSpace with
            | none => ""
            | some i => String.mk (rest.drop (i + 1))
          let hr := (lines.drop 1).foldl addHeaderLine ([], [])
          let bm : BodyMode × Nat :=
            match getHeader "transfer-encoding" hr.1 with
            | some te =>
              if te ≠ "" then
                if containsList te.data "chunked".data then (BodyMode.chunked, 0)
                else (BodyMode.close, 0)
              else contentLengthMode hr.1
            | none => contentLengthMode hr.1
          some (⟨httpVersion, status.toNat, statusText, hr.1, hr.2, bm.1, bm.2⟩,
            bodyStart)

/-- Model of `ChunkedState` (src/http1/chunked.ts): `allDone` is the source's
`DONE`. -/
inductive ChunkedState where
  | readSize
  | readData
  | readDataCRLF
  | allDone
deriving Repr, DecidableEq

/-- Termination rank: the only transition that can consume zero bytes is
`readData` to `readDataCRLF`. -/
def chunkedRank : ChunkedState → Nat
  | .readData => 2
  | .readDataCRLF => 1
  | _ => 0

/-- Model of `ChunkedDecoder.process` (src/http1/chunked.ts:50-105): the
`while (buffer.length > 0 && !done)` loop over the states.  Errors model
the thrown exceptions (invalid or oversized chunk size, missing CRLF after
chunk data).  Returns `(state, buffer, currentChunkSize, chunks, done)`. -/
def chunkedProcess (st : ChunkedState) (buffer : List Nat) (curSize : Nat)
    (chunks : List (List Nat)) (dn : Bool) :
    Except String (ChunkedState × List Nat × Nat × List (List Nat) × Bool) :=
  if hguard : buffer = [] ∨ dn = true then
    Except.ok (st, buffer, curSize, chunks, dn)
  else
    match st with
    | ChunkedState.allDone => Except.ok (st, buffer, curSize, chunks, dn)
    | ChunkedState.readSize =>
      match indexOfSub buffer [13, 10] with
      | none => Except.ok (ChunkedState.readSize, buffer, curSize, chunks, dn)
      | some crlfIdx =>
        let sizeLine := decodeAscii (buffer.take crlfIdx)
        let sizeStr :=
          match List.findIdx? (fun c => c = ';') sizeLine.data with
          | none => sizeLine.data
          | some semiIdx => sizeLine.data.take semiIdx
        match jsParseInt 16 (String.mk (charsTrim sizeStr)) with
        | none => Except.error "Invalid chunk size"
        | some sz =>
          if sz < 0 then Except.error "Invalid chunk size"
          else if sz > 16 * 1024 * 1024 then Except.error "Chunk size too large"
          else
            let buffer' := buffer.drop (crlfIdx + 2)
            if sz = 0 then
              Except.ok (ChunkedState.readSize, buffer', sz.toNat, chunks, true)
            else chunkedProcess ChunkedState.readData buffer' sz.toNat chunks dn
    | ChunkedState.readData =>
      if buffer.length < curSize then
        Except.ok (ChunkedState.readData, buffer, curSize, chunks, dn)
      else
        chunkedProcess ChunkedState.readDataCRLF (buffer.drop curSize) curSize
          (chunks ++ [buffer.take curSize]) dn
    | ChunkedState.readDataCRLF =>
      if buffer.length < 2 then
        Except.ok (ChunkedState.readDataCRLF, buffer, curSize, chunks, dn)
      else if buffer.getD 0 0 ≠ 13 ∨ buffer.getD 1 0 ≠ 10 then
        Except.error "Expected CRLF after chunk data"
      else chunkedProcess ChunkedState.readSize (buffer.drop 2) curSize chunks dn
termination_by buffer.length * 3 + chunkedRank st
decreasing_by
  · have hne : buffer ≠ [] := fun hb => hguard (Or.inl hb)
    have hpos : 0 < buffer.length := List.length_pos.mpr hne
    simp only [List.length_drop, chunkedRank]
    omega
  · simp only [List.length_drop, chunkedRank]
    omega
  · simp only [List.length_drop, chunkedRank]
    omega

/-- Model of `ChunkedDecoder` observable state (src/http1/chunked.ts); `isDone` is
the source's `_done`. -/
structure ChunkedDecoder where
  state : ChunkedState
  buffer : List Nat
  currentChunkSize : Nat
  chunks : List (List Nat)
  isDone : Bool
deriving Repr, DecidableEq

/-- Model of `ChunkedDecoder.feed`: append the data and process. -/
def ChunkedDecoder.feed (d : ChunkedDecoder) (data : List Nat) :
    Except String ChunkedDecoder :=
  match chunkedProcess d.state (d.buffer ++ data) d.currentChunkSize d.chunks
      d.isDone with
  | Except.error e => Except.error e
  | Except.ok r => Except.ok ⟨r.1, r.2.1, r.2.2.1, r.2.2.2.1, r.2.2.2.2⟩

/-- Socket events delivered to `readResponse` after the head has resolved.
Socket `error`, abort and body timeout are the orthogonal error paths, not
events of this model. -/
inductive SocketEvent where
  | dataEv (bytes : List Nat)
  | endEv
deriving Repr, DecidableEq

/-- Terminal state of the response body `ReadableStream`: still streaming,
closed normally (`controller.close()`), errored (`controller.error(...)`,
reachable only from the unmodelled socket-error/abort/timeout paths), or an
exception escaping the `data` listener (`crashed`). -/
inductive BodyTerminal where
  | streaming
  | closed
  | errored (msg : String)
  | crashed (msg : String)
deriving Repr, DecidableEq

/-- Did the body stream end with `controller.error`? -/
def isErroredTerminal : BodyTerminal → Bool
  | .errored _ => true
  | _ => false

/-- Model of `closeBody` (src/http1/parser.ts:280-290): close the stream unless it
is already settled. -/
def closeBody : BodyTerminal → BodyTerminal
  | .streaming => .closed
  | t => t

/-- Body-phase state of `readResponse` after the head resolved. -/
structure BodyPhase where
  parsed : ParsedResponse
  bodyBytesReceived : Nat
  chunkedDecoder : Option ChunkedDecoder
  enqueued : List (List Nat)
  terminal : BodyTerminal
  cleaned : Bool
deriving Repr, DecidableEq

/-- Model of `enqueueBody` (src/http1/parser.ts:292-299): enqueue only while the
stream is open. -/
def enqueueBody (s : BodyPhase) (cs : List (List Nat)) : BodyPhase :=
  match s.terminal with
  | BodyTerminal.streaming => { s with enqueued := s.enqueued ++ cs }
  | _ => s

/-- State right after the head resolves (src/http1/parser.ts:402-438): a
chunked decoder is created for chunked framing, and `content-length: 0`
closes the body immediately. -/
def initBody (resp : ParsedResponse) : BodyPhase :=
  let dec := if resp.bodyMode = BodyMode.chunked then
      some (⟨ChunkedState.readSize, [], 0, [], false⟩ : ChunkedDecoder)
    else none
  if resp.bodyMode = BodyMode.contentLength ∧ resp.contentLength = 0 then
    ⟨resp, 0, dec, [], BodyTerminal.closed, true⟩
  else ⟨resp, 0, dec, [], BodyTerminal.streaming, false⟩

/-- Model of `processBodyData` (src/http1/parser.ts:444-472): chunked framing feeds
the decoder (a decoder throw escapes the `data` listener — `crashed`),
enqueues the decoded chunks and closes on the final chunk; content-length
framing enqueues at most the remaining bytes and closes once the count is
reached; close-delimited framing enqueues everything. -/
def processBodyData (s : BodyPhase) (data : List Nat) : BodyPhase :=
  match s.parsed.bodyMode, s.chunkedDecoder with
  | BodyMode.chunked, some dec =>
    (match dec.feed data with
     | Except.error msg => { s with terminal := BodyTerminal.crashed msg }
     | Except.ok dec' =>
       let s1 := enqueueBody
         { s with chunkedDecoder := some { dec' with chunks := [] } } dec'.chunks
       if dec'.isDone then
         { s1 with terminal := closeBody s1.terminal, cleaned := true }
       else s1)
  | BodyMode.contentLength, _ =>
    let remaining := s.parsed.contentLength - s.bodyBytesReceived
    let toEnqueue := data.take remaining
    let s1 := enqueueBody
      { s with bodyBytesReceived := s.bodyBytesReceived + toEnqueue.length }
      [toEnqueue]
    if s.bodyBytesReceived + toEnqueue.length ≥ s.parsed.contentLength then
      { s1 with terminal := closeBody s1.terminal, cleaned := true }
    else s1
  | _, _ => enqueueBody s [data]

/-- One socket event (src/http1/parser.ts:376-482): after `cleanup()` the
listeners are removed and further events are ignored; `data` goes to
`processBodyData`; `end` — socket EOF — runs `onEnd`, which once the head
is parsed is `closeBody(); cleanup()`, in every body mode. -/
def stepBody (s : BodyPhase) (e : SocketEvent) : BodyPhase :=
  if s.cleaned then s
  else
    match e with
    | SocketEvent.dataEv bytes => processBodyData s bytes
    | SocketEvent.endEv =>
      { s with terminal := closeBody s.terminal, cleaned := true }

/-- Run the body phase over a sequence of socket events. -/
def runBody (resp : ParsedResponse) (events : List SocketEvent) : BodyPhase :=
  events.foldl stepBody (initBody resp)

/-- Bytes of an ASCII/latin1 string. -/
def strBytes (s : String) : List Nat := s.data.map Char.toNat

/-! ## Theorems -/

/-- Draining preserves the accounting quantity `available − Σ waiters`. -/
theorem drainWaiters_account (a : Int) (ws : List Int) :
    (drainWaiters a ws).1 - (drainWaiters a ws).2.1.sum = a - ws.sum := by
  induction ws generalizing a with
  | nil => simp [drainWaiters]
  | cons w rest ih =>
    by_cases h1 : a > 0
    · by_cases h2 : a ≥ w
      · have := ih (a - w)
        simp only [drainWaiters, if_pos h1, if_pos h2, List.sum_cons]
        omega
      · simp only [drainWaiters, if_pos h1, if_neg h2]
    · simp only [drainWaiters, if_neg h1]

/-- Each executed op shifts `available − Σ waiters` by `−k` (consume) or
`+u` (update), provided consume sizes are non-negative. -/
theorem runFlowOps_account (ops : List FlowOp) :
    ∀ s s' : FlowControlWindow,
      (∀ k, FlowOp.consume k ∈ ops → 0 ≤ k) →
      runFlowOps ops s = some s' →
      s'.available - s'.waiters.sum =
        s.available - s.waiters.sum - sumConsumes ops + sumUpdates ops := by
  induction ops with
  | nil =>
    intro s s' _ hrun
    simp only [runFlowOps, Option.some.injEq] at hrun
    subst hrun
    simp [sumConsumes, sumUpdates]
  | cons op rest ih =>
    intro s s' hpos hrun
    cases op with
    | consume k =>
      simp only [runFlowOps] at hrun
      have hk : 0 ≤ k := hpos k (List.mem_cons_self _ _)
      unfold FlowControlWindow.consume at hrun
      by_cases hk0 : k ≤ 0
      · have hkz : k = 0 := le_antisymm hk0 hk
        simp only [if_pos hk0, Option.bind_some] at hrun
        have := ih s s' (fun q hq => hpos q (List.mem_cons_of_mem _ hq)) hrun
        simp only [sumConsumes, sumUpdates, hkz] at *
        omega
      · simp only [if_neg hk0] at hrun
        by_cases hc : s.cancelled
        · simp [hc] at hrun
        · simp only [if_neg hc] at hrun
          by_cases ha : s.available ≥ k
          · simp only [if_pos ha, Option.bind_some] at hrun
            have := ih _ s' (fun q hq => hpos q (List.mem_cons_of_mem _ hq)) hrun
            simp only [sumConsumes, sumUpdates] at *
            omega
          · simp only [if_neg ha, Option.bind_some] at hrun
            have := ih _ s' (fun q hq => hpos q (List.mem_cons_of_mem _ hq)) hrun
            simp only [sumConsumes, sumUpdates, List.sum_append, List.sum_cons,
              List.sum_nil] at *
            omega
    | update u =>
      simp only [runFlowOps] at hrun
      unfold FlowControlWindow.update at hrun
      by_cases hov : s.available + u > 0x7fffffff
      · simp [hov] at hrun
      · simp only [if_neg hov, if_neg (by simp : ¬(false = true))] at hrun
        have hd := drainWaiters_account (s.available + u) s.waiters
        have := ih _ s' (fun q hq => hpos q (List.mem_cons_of_mem _ hq)) hrun
        simp only [sumConsumes, sumUpdates] at *
        omega

/-- C2: For a `FlowControlWindow` initialized with `available = N`, after any
finite interleaving of `consume(k_i)` and `update(u_j)` in which every call
completes without throwing (in particular the window never overflows
2^31 − 1), every consume has been served (the waiter queue is empty at the
end), and the consume sizes are the non-negative byte counts the engine
passes, the final `available` equals `N − Σ k_i + Σ u_j`. -/
theorem flowControl_conservation (N : Int) (ops : List FlowOp)
    (s' : FlowControlWindow)
    (hpos : ∀ k, FlowOp.consume k ∈ ops → 0 ≤ k)
    (hrun : runFlowOps ops (initWindow N) = some s')
    (hdone : s'.waiters = []) :
    s'.available = N - sumConsumes ops + sumUpdates ops := by
  have := runFlowOps_account ops (initWindow N) s' hpos hrun
  simp only [initWindow, hdone, List.sum_nil] at this
  omega

/-- Witness for C2: `N = 10`, ops `consume 4, consume 8, update 5, update 6`
(the `consume 8` waits and is drained by the updates); final available is
`10 − 12 + 11 = 9`. -/
theorem flowControl_conservation_witness :
    ∃ s' : FlowControlWindow,
      runFlowOps
        [FlowOp.consume 4, FlowOp.consume 8, FlowOp.update 5, FlowOp.update 6]
        (initWindow 10) = some s' ∧
      s'.available = 10 - sumConsumes
        [FlowOp.consume 4, FlowOp.consume 8, FlowOp.update 5, FlowOp.update 6]
        + sumUpdates
        [FlowOp.consume 4, FlowOp.consume 8, FlowOp.update 5, FlowOp.update 6] := by
  refine ⟨⟨9, [], false⟩, by decide, flowControl_conservation 10 _ _ ?_ (by decide) rfl⟩
  intro k hk
  simp only [List.mem_cons, List.not_mem_nil, or_false] at hk
  rcases hk with h | h | h | h
  · injection h with h
    omega
  · injection h with h
    omega
  · exact FlowOp.noConfusion h
  · exact FlowOp.noConfusion h

/-- C8: `drainWaiters` resolves a strict FIFO prefix of the waiter queue:
the resolved waiters are `waiters.take n` (in order), the survivors are
`waiters.drop n`, each resolved waiter debited its requested size, and when
waiters remain the drain stopped because the window is exhausted or the
*head* survivor does not fit — a later, smaller waiter is never resolved
over it. -/
theorem drainWaiters_fifo (a : Int) (ws : List Int) :
    ∃ n : Nat,
      (drainWaiters a ws).2.2 = ws.take n ∧
      (drainWaiters a ws).2.1 = ws.drop n ∧
      (drainWaiters a ws).1 = a - (ws.take n).sum ∧
      ((drainWaiters a ws).2.1 = [] ∨
        (drainWaiters a ws).1 ≤ 0 ∨
        (drainWaiters a ws).1 < (drainWaiters a ws).2.1.headI) := by
  induction ws generalizing a with
  | nil => exact ⟨0, by simp [drainWaiters]⟩
  | cons w rest ih =>
    by_cases h1 : a > 0
    · by_cases h2 : a ≥ w
      · obtain ⟨n, hres, hrem, hav, hstop⟩ := ih (a - w)
        refine ⟨n + 1, ?_, ?_, ?_, ?_⟩
        · simp only [drainWaiters, if_pos h1, if_pos h2, List.take_succ_cons, hres]
        · simp only [drainWaiters, if_pos h1, if_pos h2, List.drop_succ_cons, hrem]
        · simp only [drainWaiters, if_pos h1, if_pos h2, List.take_succ_cons,
            List.sum_cons, hav]
          omega
        · simp only [drainWaiters, if_pos h1, if_pos h2]
          exact hstop
      · refine ⟨0, ?_, ?_, ?_, ?_⟩ <;>
          simp only [drainWaiters, if_pos h1, if_neg h2, List.take_zero,
            List.drop_zero, List.sum_nil, List.headI] <;>
          omega
    · refine ⟨0, ?_, ?_, ?_, ?_⟩ <;>
        simp only [drainWaiters, if_neg h1, List.take_zero, List.drop_zero,
          List.sum_nil, List.headI] <;>
        omega

/-- C9: `update` adds the increment before checking the 2^31 − 1 bound:
it throws exactly when the post-addition `available` exceeds 2^31 − 1, and
when it throws the window is left at that overflowed value (no rollback)
with the waiter queue untouched (`drainWaiters` never ran). -/
theorem update_overflow_no_rollback (s : FlowControlWindow) (inc : Int) :
    ((s.update inc).2 = true ↔ 2 ^ 31 - 1 < s.available + inc) ∧
    ((s.update inc).2 = true →
      (s.update inc).1.available = s.available + inc ∧
      2 ^ 31 - 1 < (s.update inc).1.available ∧
      (s.update inc).1.waiters = s.waiters) := by
  by_cases h : s.available + inc > 0x7fffffff
  · have hupd : s.update inc = ({ s with available := s.available + inc }, true) := by
      simp [FlowControlWindow.update, h]
    rw [hupd]
    refine ⟨⟨fun _ => by norm_num; omega, fun _ => rfl⟩,
      fun _ => ⟨rfl, by norm_num; omega, rfl⟩⟩
  · have hupd : s.update inc =
        ({ s with
            available := (drainWaiters (s.available + inc) s.waiters).1,
            waiters := (drainWaiters (s.available + inc) s.waiters).2.1 }, false) := by
      simp [FlowControlWindow.update, h]
    rw [hupd]
    refine ⟨⟨fun hc => absurd hc (by simp), fun hc => by norm_num at hc; omega⟩,
      fun hc => absurd hc (by simp)⟩

/-- Witness for C9: a window at 2^31 − 1 updated by 1 throws and is left at
2^31, waiters untouched. -/
theorem update_overflow_no_rollback_witness :
    (FlowControlWindow.update ⟨0x7fffffff, [5], false⟩ 1).2 = true ∧
    (FlowControlWindow.update ⟨0x7fffffff, [5], false⟩ 1).1.available =
      0x7fffffff + 1 ∧
    (FlowControlWindow.update ⟨0x7fffffff, [5], false⟩ 1).1.waiters = [5] := by
  have h := update_overflow_no_rollback ⟨0x7fffffff, [5], false⟩ 1
  have ht : (FlowControlWindow.update ⟨0x7fffffff, [5], false⟩ 1).2 = true :=
    h.1.mpr (by norm_num)
  obtain ⟨ha, _, hw⟩ := h.2 ht
  exact ⟨ht, ha, hw⟩

/-- Concatenation of chunks unfolds one chunk at a time. -/
theorem concatChunks_cons (c : List Nat) (cs : List (List Nat)) :
    concatChunks (c :: cs) = c ++ concatChunks cs := rfl

/-- Model of `process` on an errored parser consumes nothing. -/
theorem processFrames_errored (maxFS : Nat) (buf : List Nat) :
    processFrames maxFS ParserMode.errored buf = (ParserMode.errored, buf, []) := by
  rw [processFrames]

/-- A head-state parser with fewer than 9 buffered bytes is blocked. -/
theorem processFrames_head_short (maxFS : Nat) (buf : List Nat)
    (hshort : ∀ (b0 b1 b2 b3 b4 b5 b6 b7 b8 : Nat) (rest : List Nat),
      buf = b0 :: b1 :: b2 :: b3 :: b4 :: b5 :: b6 :: b7 :: b8 :: rest → False) :
    processFrames maxFS ParserMode.frameHead buf = (ParserMode.frameHead, buf, []) := by
  rcases buf with _ | ⟨a0, _ | ⟨a1, _ | ⟨a2, _ | ⟨a3, _ | ⟨a4, _ | ⟨a5, _ | ⟨a6, _ |
    ⟨a7, _ | ⟨a8, t⟩⟩⟩⟩⟩⟩⟩⟩⟩
  all_goals try (rw [processFrames]; simp)
  exact (hshort a0 a1 a2 a3 a4 a5 a6 a7 a8 t rfl).elim

/-- Processing a buffer and then processing the leftover with more bytes
appended is the same as processing everything at once. -/
theorem processFrames_append (maxFS : Nat) (m : ParserMode) (buf extra : List Nat) :
    processFrames maxFS m (buf ++ extra) =
      ((processFrames maxFS (processFrames maxFS m buf).1
          ((processFrames maxFS m buf).2.1 ++ extra)).1,
       (processFrames maxFS (processFrames maxFS m buf).1
          ((processFrames maxFS m buf).2.1 ++ extra)).2.1,
       (processFrames maxFS m buf).2.2 ++
         (processFrames maxFS (processFrames maxFS m buf).1
            ((processFrames maxFS m buf).2.1 ++ extra)).2.2) := by
  induction m, buf using processFrames.induct maxFS with
  | case1 buf =>
    simp [processFrames_errored]
  | case2 b0 b1 b2 b3 b4 b5 b6 b7 b8 rest len hgt =>
    simp only [List.cons_append]
    rw [processFrames, processFrames]
    simp only [if_pos hgt]
    rw [processFrames_errored]
    simp
  | case3 b0 b1 b2 b3 b4 b5 b6 b7 b8 rest len hgt ih =>
    simp only [List.cons_append]
    rw [processFrames]
    conv_rhs => rw [processFrames]
    simp only [if_neg hgt]
    exact ih
  | case4 buf hshort =>
    rw [processFrames_head_short maxFS buf hshort]
    simp
  | case5 buf len ty fl sid hwait =>
    have hb : processFrames maxFS (ParserMode.frameBody len ty fl sid) buf =
        (ParserMode.frameBody len ty fl sid, buf, []) := by
      rw [processFrames]
      simp only [dif_pos hwait]
    rw [hb]
    simp only [List.nil_append]
  | case6 buf len ty fl sid hwait ih =>
    have hlong : ¬(buf ++ extra).length < len := by
      simp only [List.length_append]
      omega
    rw [processFrames, dif_neg hlong]
    conv_rhs => rw [processFrames, dif_neg hwait]
    have hle : len ≤ buf.length := by omega
    rw [List.take_append_of_le_length hle, List.drop_append_of_le_length hle, ih]
    simp

/-- The state a `process` run leaves behind is blocked: running `process`
again on it consumes nothing and emits nothing. -/
theorem processFrames_blocked (maxFS : Nat) (m : ParserMode) (buf : List Nat) :
    processFrames maxFS (processFrames maxFS m buf).1
        (processFrames maxFS m buf).2.1 =
      ((processFrames maxFS m buf).1, (processFrames maxFS m buf).2.1, []) := by
  induction m, buf using processFrames.induct maxFS with
  | case1 buf =>
    simp [processFrames_errored]
  | case2 b0 b1 b2 b3 b4 b5 b6 b7 b8 rest len hgt =>
    rw [processFrames]
    simp only [if_pos hgt]
    rw [processFrames_errored]
  | case3 b0 b1 b2 b3 b4 b5 b6 b7 b8 rest len hgt ih =>
    rw [processFrames]
    simp only [if_neg hgt]
    exact ih
  | case4 buf hshort =>
    rw [processFrames_head_short maxFS buf hshort, processFrames_head_short maxFS buf hshort]
  | case5 buf len ty fl sid hwait =>
    rw [processFrames]
    simp only [dif_pos hwait]
    rw [processFrames]
    simp only [dif_pos hwait]
  | case6 buf len ty fl sid hwait ih =>
    rw [processFrames]
    simp only [dif_neg hwait]
    exact ih

/-- Parsing `encodeFrame f` followed by more bytes emits exactly `f` and
continues on the remaining bytes, for any frame whose fields are in range
and whose payload fits the configured max frame size (itself below the
RFC 7540 2^24 - 1 bound on SETTINGS_MAX_FRAME_SIZE). -/
theorem processFrames_encode (maxFS : Nat) (f : Frame) (rest : List Nat)
    (hty : f.type < 256) (hfl : f.flags < 256) (hsid : f.streamId < 2 ^ 31)
    (hlen : f.payload.length ≤ maxFS) (hmax : maxFS < 2 ^ 24) :
    processFrames maxFS ParserMode.frameHead (encodeFrame f ++ rest) =
      ((processFrames maxFS ParserMode.frameHead rest).1,
       (processFrames maxFS ParserMode.frameHead rest).2.1,
       f :: (processFrames maxFS ParserMode.frameHead rest).2.2) := by
  have hL : f.payload.length < 2 ^ 24 := by omega
  have hlenEq : f.payload.length / 2 ^ 16 % 256 * 2 ^ 16 +
      f.payload.length / 2 ^ 8 % 256 * 2 ^ 8 + f.payload.length % 256 =
      f.payload.length := by omega
  have hsidEq : f.streamId / 2 ^ 24 % 128 % 128 * 2 ^ 24 +
      f.streamId / 2 ^ 16 % 256 * 2 ^ 16 + f.streamId / 2 ^ 8 % 256 * 2 ^ 8 +
      f.streamId % 256 = f.streamId := by omega
  rw [encodeFrame]
  simp only [List.cons_append]
  conv_lhs => rw [processFrames]
  simp only [hlenEq, hsidEq]
  rw [if_neg (show ¬f.payload.length > maxFS by omega)]
  conv_lhs => rw [processFrames]
  rw [dif_neg (show ¬(f.payload ++ rest).length < f.payload.length by
    simp only [List.length_append]; omega)]
  rw [List.take_append_of_le_length (le_refl _), List.drop_append_of_le_length (le_refl _)]
  simp only [List.take_length, List.drop_length, List.nil_append,
    Nat.mod_eq_of_lt hty, Nat.mod_eq_of_lt hfl]

/-- Parsing the concatenated encodings of a frame sequence emits exactly
that sequence and leaves an empty, head-state parser. -/
theorem processFrames_encodeAll (maxFS : Nat) (S : List Frame)
    (hvalid : ∀ f ∈ S, f.Valid maxFS) (hmax : maxFS < 2 ^ 24) :
    processFrames maxFS ParserMode.frameHead (concatChunks (S.map encodeFrame)) =
      (ParserMode.frameHead, [], S) := by
  induction S with
  | nil =>
    rw [show concatChunks ([].map encodeFrame) = [] from rfl]
    exact processFrames_head_short maxFS [] (by intro b0 b1 b2 b3 b4 b5 b6 b7 b8 rest h; simp at h)
  | cons f S ih =>
    obtain ⟨hty, hfl, hsid, hlen, _⟩ := hvalid f (List.mem_cons_self f S)
    have hrest := ih (fun g hg => hvalid g (List.mem_cons_of_mem _ hg))
    rw [List.map_cons, concatChunks_cons,
      processFrames_encode maxFS f _ hty hfl hsid hlen hmax, hrest]

/-- Feeding chunks one by one equals processing the concatenation, as long
as the whole run does not end in the errored state. -/
theorem feedAll_run (cs : List (List Nat)) :
    ∀ p : FrameParser,
      processFrames p.maxFrameSize p.mode p.buffer = (p.mode, p.buffer, []) →
      (processFrames p.maxFrameSize p.mode
          (p.buffer ++ concatChunks cs)).1 ≠ ParserMode.errored →
      p.feedAll cs =
        (⟨(processFrames p.maxFrameSize p.mode (p.buffer ++ concatChunks cs)).1,
          (processFrames p.maxFrameSize p.mode (p.buffer ++ concatChunks cs)).2.1,
          p.maxFrameSize⟩,
         (processFrames p.maxFrameSize p.mode (p.buffer ++ concatChunks cs)).2.2) := by
  induction cs with
  | nil =>
    intro p hb _
    simp only [concatChunks, List.foldr_nil, List.append_nil, hb]
    rfl
  | cons c cs ih =>
    intro p hb hne
    have hmode : p.mode ≠ ParserMode.errored := by
      intro hm
      apply hne
      rw [hm, processFrames_errored]
    by_cases hc : c = []
    · subst hc
      have hskip : p.feedAll ([] :: cs) = p.feedAll cs := by
        simp [FrameParser.feedAll, FrameParser.feed, hmode]
      rw [concatChunks_cons, List.nil_append] at hne
      rw [hskip, concatChunks_cons, List.nil_append]
      exact ih p hb hne
    · rw [concatChunks_cons, ← List.append_assoc] at hne ⊢
      have hsplit := processFrames_append p.maxFrameSize p.mode (p.buffer ++ c)
        (concatChunks cs)
      rw [hsplit] at hne ⊢
      have hfeed : p.feed c =
          (⟨(processFrames p.maxFrameSize p.mode (p.buffer ++ c)).1,
            (processFrames p.maxFrameSize p.mode (p.buffer ++ c)).2.1,
            p.maxFrameSize⟩,
           (processFrames p.maxFrameSize p.mode (p.buffer ++ c)).2.2) := by
        simp [FrameParser.feed, hmode, hc]
      have hih := ih ⟨(processFrames p.maxFrameSize p.mode (p.buffer ++ c)).1,
          (processFrames p.maxFrameSize p.mode (p.buffer ++ c)).2.1, p.maxFrameSize⟩
        (processFrames_blocked p.maxFrameSize p.mode (p.buffer ++ c)) hne
      rw [show p.feedAll (c :: cs) =
          (((p.feed c).1.feedAll cs).1, (p.feed c).2 ++ ((p.feed c).1.feedAll cs).2)
        from rfl]
      rw [hfeed, hih]

/-- C3: round-trip of the frame codec.  For every sequence `S` of valid
frames (payload length at most the parser's configured max frame size --
itself below the RFC 7540 2^24 - 1 bound -- stream id in 31 bits, byte-sized
type/flags/payload entries), feeding the concatenation of their
`encodeFrame` encodings to a fresh `FrameParser`, split into arbitrary
chunks, emits exactly `S` in order and leaves the parser empty in the head
state.  The single-frame case is `S = [F]`, `cs = [encodeFrame F]`. -/
theorem frameCodec_roundtrip (maxFS : Nat) (S : List Frame) (cs : List (List Nat))
    (hmax : maxFS < 2 ^ 24)
    (hvalid : ∀ f ∈ S, f.Valid maxFS)
    (hchunks : concatChunks cs = concatChunks (S.map encodeFrame)) :
    (FrameParser.init maxFS).feedAll cs = (FrameParser.init maxFS, S) := by
  have hrun := processFrames_encodeAll maxFS S hvalid hmax
  have hne : (processFrames (FrameParser.init maxFS).maxFrameSize
      (FrameParser.init maxFS).mode
      ((FrameParser.init maxFS).buffer ++ concatChunks cs)).1 ≠ ParserMode.errored := by
    simp only [FrameParser.init, List.nil_append, hchunks, hrun]
    intro h
    exact ParserMode.noConfusion h
  have hinit : processFrames (FrameParser.init maxFS).maxFrameSize
      (FrameParser.init maxFS).mode (FrameParser.init maxFS).buffer =
      ((FrameParser.init maxFS).mode, (FrameParser.init maxFS).buffer, []) :=
    processFrames_head_short maxFS []
      (by intro b0 b1 b2 b3 b4 b5 b6 b7 b8 rest h; simp at h)
  have := feedAll_run cs (FrameParser.init maxFS) hinit hne
  rw [this]
  simp only [FrameParser.init, List.nil_append, hchunks, hrun]

/-- Witness for C3: two frames (type 1 with a 2-byte payload on stream 1,
type 0 with a 3-byte payload on stream 3) encoded, concatenated and split
into ragged chunks, parse back to exactly the two frames. -/
theorem frameCodec_roundtrip_witness :
    (FrameParser.init 16384).feedAll
        [[0, 0, 2], [1, 4, 0, 0], [0, 1, 10, 20, 0, 0, 3, 0], [1], [0, 0, 0, 3, 7, 8],
          [9]] =
      (FrameParser.init 16384,
        [⟨1, 4, 1, [10, 20]⟩, ⟨0, 1, 3, [7, 8, 9]⟩]) := by
  exact frameCodec_roundtrip 16384
    [⟨1, 4, 1, [10, 20]⟩, ⟨0, 1, 3, [7, 8, 9]⟩]
    [[0, 0, 2], [1, 4, 0, 0], [0, 1, 10, 20, 0, 0, 3, 0], [1], [0, 0, 0, 3, 7, 8], [9]]
    (by norm_num) (by decide) (by decide)

/-- C7: the delay is `min(seconds × 1000, maxDelay)` when the header parses
as a number > 0; otherwise `min(date − now, maxDelay)` when it parses as a
date strictly in the future; otherwise `min(baseDelay × 2^attempt,
maxDelay)`. -/
theorem calculateRetryDelay_spec (header : Option RetryAfterValue) (now : ℚ)
    (attempt : Nat) (baseDelay maxDelay : ℚ) :
    (∀ v s, header = some v → v.numVal = some s → 0 < s →
      calculateRetryDelay header now attempt baseDelay maxDelay =
        min (s * 1000) maxDelay) ∧
    (∀ v d, header = some v → (∀ s, v.numVal = some s → ¬0 < s) →
      v.dateVal = some d → now < d →
      calculateRetryDelay header now attempt baseDelay maxDelay =
        min (d - now) maxDelay) ∧
    ((header = none ∨ ∃ v, header = some v ∧
        (∀ s, v.numVal = some s → ¬0 < s) ∧
        (∀ d, v.dateVal = some d → ¬now < d)) →
      calculateRetryDelay header now attempt baseDelay maxDelay =
        min (baseDelay * 2 ^ attempt) maxDelay) := by
  refine ⟨?_, ?_, ?_⟩
  · intro v s hv hs hpos
    subst hv
    simp [calculateRetryDelay, hs, hpos]
  · intro v d hv hnum hd hfut
    subst hv
    unfold calculateRetryDelay
    match hval : v.numVal with
    | some s =>
      have : ¬0 < s := hnum s hval
      simp only [hval]
      rw [if_neg (by exact this)]
      simp [retryDateBranch, hd, show (0:ℚ) < d - now by linarith]
    | none =>
      simp only [hval]
      simp [retryDateBranch, hd, show (0:ℚ) < d - now by linarith]
  · intro hcase
    rcases hcase with hnone | ⟨v, hv, hnum, hdate⟩
    · subst hnone
      rfl
    · subst hv
      unfold calculateRetryDelay
      have hbranch : retryDateBranch v now (min (baseDelay * 2 ^ attempt) maxDelay)
          maxDelay = min (baseDelay * 2 ^ attempt) maxDelay := by
        rcases hdv : v.dateVal with _ | d
        · simp [retryDateBranch, hdv]
        · have hnf : ¬now < d := hdate d hdv
          simp only [retryDateBranch, hdv]
          rw [if_neg (by rw [gt_iff_lt, sub_pos]; exact hnf)]
      match hval : v.numVal with
      | some s =>
        have : ¬0 < s := hnum s hval
        simp only [hval]
        rw [if_neg (by exact this), hbranch]
      | none =>
        simp only [hval]
        rw [hbranch]

/-- Witness for C7: the three branches at concrete inputs — `Retry-After: 3`
gives 3000 ms, a date 1500 ms in the future gives 1500 ms, and no header
gives `baseDelay × 2^attempt`. -/
theorem calculateRetryDelay_spec_witness :
    calculateRetryDelay (some ⟨some 3, none⟩) 0 1 500 30000 = min (3 * 1000) 30000 ∧
    calculateRetryDelay (some ⟨none, some 2000⟩) 500 1 500 30000 =
      min (2000 - 500) 30000 ∧
    calculateRetryDelay none 0 2 500 30000 = min (500 * 2 ^ 2) 30000 := by
  refine ⟨?_, ?_, ?_⟩
  · exact (calculateRetryDelay_spec (some ⟨some 3, none⟩) 0 1 500 30000).1
      _ _ rfl rfl (by norm_num)
  · exact (calculateRetryDelay_spec (some ⟨none, some 2000⟩) 500 1 500 30000).2.1
      _ _ rfl (fun s h => Option.noConfusion h) rfl (by norm_num)
  · exact (calculateRetryDelay_spec none 0 2 500 30000).2.2 (Or.inl rfl)

/-- A throw of `mapExcept octetToHex` pinpoints a part whose parsed value is
out of range (a `NaN` part never throws). -/
theorem mapExcept_octet_error (l : List String) :
    ∀ e : String, mapExcept octetToHex l = Except.error e →
      ∃ p ∈ l, ∃ v : Int, jsParseInt 10 p = some v ∧ (v < 0 ∨ v > 255) := by
  induction l with
  | nil =>
    intro e h
    simp [mapExcept] at h
  | cons x xs ih =>
    intro e h
    simp only [mapExcept] at h
    rcases hx : octetToHex x with ex | y
    · rcases hp : jsParseInt 10 x with _ | v
      · simp only [octetToHex, hp] at hx
        exact Except.noConfusion hx
      · simp only [octetToHex, hp] at hx
        by_cases hr : v < 0 ∨ v > 255
        · exact ⟨x, List.mem_cons_self _ _, v, hp, hr⟩
        · rw [if_neg hr] at hx
          exact Except.noConfusion hx
    · simp only [hx] at h
      rcases hxs : mapExcept octetToHex xs with exs | ys
      · obtain ⟨p, hpmem, v, hv, hr⟩ := ih exs hxs
        exact ⟨p, List.mem_cons_of_mem _ hpmem, v, hv, hr⟩
      · simp only [hxs] at h
        exact Except.noConfusion h

/-- C10: `ipv4ToNAT64` throws only when the input does not have exactly four
dot-separated parts or some part parses (`parseInt`, radix 10) to a value
outside 0..255; a part whose `parseInt` is `NaN` slips through both range
guards, and the concrete input `"1.2.x.4"` yields, without throwing, the
bracketed literal `"[64:ff9b::0102:NaN04]"`, which contains `"NaN"`. -/
theorem ipv4ToNAT64_nan_passthrough :
    (∀ (s pfx e : String), ipv4ToNAT64 s pfx = Except.error e →
      (jsSplit '.' s).length ≠ 4 ∨
        ∃ p ∈ jsSplit '.' s, ∃ v : Int,
          jsParseInt 10 p = some v ∧ (v < 0 ∨ v > 255)) ∧
    ipv4ToNAT64 "1.2.x.4" "64:ff9b::" = Except.ok "[64:ff9b::0102:NaN04]" ∧
    ∃ l r : List Char,
      "[64:ff9b::0102:NaN04]".data = l ++ "NaN".data ++ r := by
  refine ⟨?_, by rfl, ⟨"[64:ff9b::0102:".data, "04]".data, by rfl⟩⟩
  intro s pfx e h
  unfold ipv4ToNAT64 at h
  by_cases hlen : (jsSplit '.' s).length ≠ 4
  · exact Or.inl hlen
  · rw [if_neg hlen] at h
    rcases hm : mapExcept octetToHex (jsSplit '.' s) with em | hex
    · exact Or.inr (mapExcept_octet_error _ em hm)
    · rw [hm] at h
      exact Except.noConfusion h

/-- Witness for C10: the error branch of the characterisation at the
concrete out-of-range input `"1.2.3.999"`. -/
theorem ipv4ToNAT64_nan_passthrough_witness :
    (jsSplit '.' "1.2.3.999").length ≠ 4 ∨
      ∃ p ∈ jsSplit '.' "1.2.3.999", ∃ v : Int,
        jsParseInt 10 p = some v ∧ (v < 0 ∨ v > 255) :=
  ipv4ToNAT64_nan_passthrough.1 "1.2.3.999" "64:ff9b::"
    "Invalid IPv4 octet: 999" (by rfl)

/-- C6: resolving any uncached hostname issues exactly one outbound DoH
query — the A-record lookup for that hostname — and in particular never an
AAAA query, whatever the resolver answers. -/
theorem resolveAndCheckCloudflare_queries_A_only
    (net : String → String → Option DnsJsonResponse) (hostname : String) :
    (resolveAndCheckCloudflare net hostname).2 = [(hostname, "A")] ∧
    ∀ q ∈ (resolveAndCheckCloudflare net hostname).2, q.2 ≠ "AAAA" := by
  refine ⟨rfl, ?_⟩
  intro q hq
  have hqa : q = (hostname, "A") := by
    simpa [resolveAndCheckCloudflare, dohQuery] using hq
  have h2 : q.2 = "A" := by rw [hqa]
  rw [h2]
  decide

/-- Deletion never makes a header appear. -/
theorem getHeader_deleteHeader_of_none (k k' : String)
    (h : List (String × String)) (hnone : getHeader k h = none) :
    getHeader k (deleteHeader k' h) = none := by
  unfold getHeader at *
  rcases hf : (deleteHeader k' h).find? (fun p => p.1 = k) with _ | q
  · rw [hf]
    rfl
  · exfalso
    have hq := List.find?_some hf
    have hqmem : q ∈ h := by
      have := List.mem_of_find?_eq_some hf
      simp only [deleteHeader, List.mem_filter] at this
      exact this.1
    have hex : (h.find? (fun p => decide (p.1 = k))).isSome = true :=
      List.find?_isSome.mpr ⟨q, hqmem, hq⟩
    rcases hf0 : h.find? (fun p => decide (p.1 = k)) with _ | r
    · rw [hf0] at hex
      simp at hex
    · rw [hf0] at hnone
      simp at hnone

/-- Deleting a key removes it. -/
theorem getHeader_deleteHeader_self (k : String)
    (h : List (String × String)) : getHeader k (deleteHeader k h) = none := by
  unfold getHeader
  rcases hf : (deleteHeader k h).find? (fun p => p.1 = k) with _ | q
  · rw [hf]
    rfl
  · exfalso
    have hq := List.find?_some hf
    have hqne : q.1 ≠ k := by
      have := List.mem_of_find?_eq_some hf
      simp only [deleteHeader, List.mem_filter, decide_eq_true_eq] at this
      exact this.2
    simp only [decide_eq_true_eq] at hq
    exact hqne hq

/-- Setting one key does not resurrect a different absent key. -/
theorem getHeader_setHeader_ne (k k' v : String)
    (h : List (String × String)) (hne : k ≠ k') :
    getHeader k (setHeader k' v h) = getHeader k (deleteHeader k' h) := by
  unfold getHeader setHeader
  rw [List.find?_cons_of_neg]
  simp only [decide_eq_true_eq]
  exact fun hc => hne hc.symm

/-- None of the three sensitive headers is `host`. -/
theorem sensitive_ne_host (k : String) (hk : k ∈ sensitiveHeaders) :
    k ≠ "host" := by
  have hk' : k = "authorization" ∨ k = "cookie" ∨ k = "proxy-authorization" := by
    simpa [sensitiveHeaders] using hk
  rcases hk' with rfl | rfl | rfl <;> decide

/-- A sensitive header absent before a hop stays absent after it (a hop
only deletes headers and writes `host`). -/
theorem redirectStep_preserves_absent (k : String) (hk : k ≠ "host")
    (status : Nat) (a b : ParsedUrl) (h : List (String × String))
    (hnone : getHeader k h = none) :
    getHeader k (redirectStep status a b h) = none := by
  have hbody : getHeader k (if status = 301 ∨ status = 302 ∨ status = 303 then
      deleteHeader "content-encoding" (deleteHeader "content-length"
        (deleteHeader "content-type" h)) else h) = none := by
    split
    · exact getHeader_deleteHeader_of_none _ _ _
        (getHeader_deleteHeader_of_none _ _ _
          (getHeader_deleteHeader_of_none _ _ _ hnone))
    · exact hnone
  simp only [redirectStep]
  rw [getHeader_setHeader_ne k "host" _ _ hk]
  apply getHeader_deleteHeader_of_none
  split
  · exact getHeader_deleteHeader_of_none _ _ _
      (getHeader_deleteHeader_of_none _ _ _
        (getHeader_deleteHeader_of_none _ _ _ hbody))
  · exact hbody

/-- A cross-origin hop deletes each sensitive header. -/
theorem redirectStep_strips (k : String) (hk : k ∈ sensitiveHeaders)
    (status : Nat) (a b : ParsedUrl) (h : List (String × String))
    (hchange : isOriginChange a b = true) :
    getHeader k (redirectStep status a b h) = none := by
  have hk' : k = "authorization" ∨ k = "cookie" ∨ k = "proxy-authorization" := by
    simpa [sensitiveHeaders] using hk
  simp only [redirectStep]
  rw [getHeader_setHeader_ne k "host" _ _ (sensitive_ne_host k hk)]
  apply getHeader_deleteHeader_of_none
  rw [if_pos hchange]
  rcases hk' with rfl | rfl | rfl
  · exact getHeader_deleteHeader_of_none _ _ _
      (getHeader_deleteHeader_of_none _ _ _ (getHeader_deleteHeader_self _ _))
  · exact getHeader_deleteHeader_of_none _ _ _ (getHeader_deleteHeader_self _ _)
  · exact getHeader_deleteHeader_self _ _

/-- Absence of a non-`host` header is preserved along any remaining chain. -/
theorem followRedirects_preserves_absent (k : String) (hk : k ≠ "host") :
    ∀ (hops : List (Nat × ParsedUrl)) (u : ParsedUrl)
      (h : List (String × String)),
      getHeader k h = none → getHeader k (followRedirects u hops h) = none := by
  intro hops
  induction hops with
  | nil =>
    intro u h hnone
    exact hnone
  | cons hop rest ih =>
    intro u h hnone
    exact ih hop.2 _ (redirectStep_preserves_absent k hk hop.1 u hop.2 h hnone)

/-- C1: in any redirect chain the dispatcher follows (`redirect: "follow"`,
at most `maxRedirects` hops), if hop `i` changes scheme, hostname or port,
then every request issued after that hop — including the final one —
carries none of `authorization`, `cookie`, `proxy-authorization`. -/
theorem redirect_crossOrigin_strips_sensitive (u : ParsedUrl)
    (hops : List (Nat × ParsedUrl)) (h0 : List (String × String))
    (maxRedirects : Nat) (hmax : hops.length ≤ maxRedirects)
    (i : Nat) (hi : i < hops.length)
    (hchange : isOriginChange (chainUrl u hops i) (chainUrl u hops (i + 1)) = true)
    (j : Nat) (hij : i < j) (hj : j ≤ hops.length)
    (k : String) (hk : k ∈ sensitiveHeaders) :
    getHeader k (headersAt u hops h0 j) = none := by
  clear hmax
  induction hops generalizing u h0 i j with
  | nil => simp at hi
  | cons hop rest ih =>
    obtain ⟨j', rfl⟩ : ∃ j', j = j' + 1 := ⟨j - 1, by omega⟩
    rw [headersAt, List.take_succ_cons, followRedirects]
    cases i with
    | zero =>
      have hstep : getHeader k (redirectStep hop.1 u hop.2 h0) = none := by
        apply redirectStep_strips k hk
        simpa [chainUrl] using hchange
      exact followRedirects_preserves_absent k (sensitive_ne_host k hk) _ _ _ hstep
    | succ i' =>
      have hi' : i' < rest.length := by
        simp only [List.length_cons] at hi
        omega
      have e1 : chainUrl hop.2 rest i' = chainUrl u (hop :: rest) (i' + 1) := by
        have hlt : i' < (hop.2 :: rest.map Prod.snd).length := by
          simp only [List.length_cons, List.length_map]
          omega
        simp only [chainUrl, List.map_cons, List.getD_cons_succ]
        rw [List.getD_eq_getElem _ _ hlt, List.getD_eq_getElem _ _ hlt]
      have e2 : chainUrl hop.2 rest (i' + 1) =
          chainUrl u (hop :: rest) (i' + 2) := by
        have hlt : i' < (rest.map Prod.snd).length := by
          simp only [List.length_map]
          omega
        simp only [chainUrl, List.map_cons, List.getD_cons_succ]
        rw [List.getD_eq_getElem _ _ hlt, List.getD_eq_getElem _ _ hlt]
      have hchange' : isOriginChange (chainUrl hop.2 rest i')
          (chainUrl hop.2 rest (i' + 1)) = true := by
        rw [e1, e2]
        exact hchange
      exact ih hop.2 _ i' (by simpa using hi) hchange' j' (by omega)
        (by simpa using hj)

/-- Witness for C1: a chain `https://a.example → https://b.example (302) →
https://b.example/2 (302)` starting with authorization, cookie and
proxy-authorization headers ends with authorization absent (the same
theorem applies to the other two keys and to the intermediate request). -/
theorem redirect_crossOrigin_strips_sensitive_witness :
    getHeader "authorization"
      (headersAt ⟨"https", "a.example", 443, "/"⟩
        [(302, ⟨"https", "b.example", 443, "/"⟩),
         (302, ⟨"https", "b.example", 443, "/2"⟩)]
        [("authorization", "Bearer t"), ("cookie", "s=1"),
         ("proxy-authorization", "Basic u"), ("accept", "*/*")] 2) = none := by
  exact redirect_crossOrigin_strips_sensitive
    ⟨"https", "a.example", 443, "/"⟩
    [(302, ⟨"https", "b.example", 443, "/"⟩),
     (302, ⟨"https", "b.example", 443, "/2"⟩)]
    [("authorization", "Bearer t"), ("cookie", "s=1"),
     ("proxy-authorization", "Basic u"), ("accept", "*/*")]
    5 (by decide) 0 (by decide) (by decide) 2 (by decide) (by decide)
    "authorization" (by decide)

/-- Once a non-update field has been decoded, any later size update makes
the loop throw (possibly an earlier field throws first). -/
theorem decodeFields_seen_update_errors (limit : Nat) :
    ∀ (fields : List HField) (t : HpackTable),
      (∃ f ∈ fields, f.isSizeUpdate = true) →
      ∃ msg, decodeFields limit fields t true = Except.error msg := by
  intro fields
  induction fields with
  | nil =>
    intro t hex
    simp at hex
  | cons f rest ih =>
    intro t hex
    cases f with
    | indexed idx =>
      rcases hl : t.lookup idx with _ | e
      · exact ⟨"Field not found", by simp [decodeFields, hl]⟩
      · have hex' : ∃ g ∈ rest, g.isSizeUpdate = true := by
          rcases hex with ⟨g, hg, hup⟩
          rcases List.mem_cons.mp hg with rfl | hg'
          · simp [HField.isSizeUpdate] at hup
          · exact ⟨g, hg', hup⟩
        obtain ⟨msg, hmsg⟩ := ih t hex'
        exact ⟨msg, by simp [decodeFields, hl, hmsg, Except.map]⟩
    | sizeUpdate size =>
      exact ⟨"HPACK dynamic table size update must occur at the start of a header block",
        by simp [decodeFields]⟩
    | literalNoInc ni nameIdx nameLit value =>
      rcases hl : (if nameIdx = 0 then some (nameLit, "") else t.lookup nameIdx)
        with _ | e
      · exact ⟨"Field not found", by simp [decodeFields, hl]⟩
      · have hex' : ∃ g ∈ rest, g.isSizeUpdate = true := by
          rcases hex with ⟨g, hg, hup⟩
          rcases List.mem_cons.mp hg with rfl | hg'
          · simp [HField.isSizeUpdate] at hup
          · exact ⟨g, hg', hup⟩
        obtain ⟨msg, hmsg⟩ := ih t hex'
        exact ⟨msg, by simp [decodeFields, hl, hmsg, Except.map]⟩
    | literalInc nameIdx nameLit value =>
      rcases hl : (if nameIdx = 0 then some (nameLit, "") else t.lookup nameIdx)
        with _ | e
      · exact ⟨"Field not found", by simp [decodeFields, hl]⟩
      · have hex' : ∃ g ∈ rest, g.isSizeUpdate = true := by
          rcases hex with ⟨g, hg, hup⟩
          rcases List.mem_cons.mp hg with rfl | hg'
          · simp [HField.isSizeUpdate] at hup
          · exact ⟨g, hg', hup⟩
        obtain ⟨msg, hmsg⟩ := ih (t.add e.1 value) hex'
        exact ⟨msg, by simp [decodeFields, hl, hmsg, Except.map]⟩

/-- A block with a size update after some non-update field always fails to
decode. -/
theorem decodeFields_late_update_errors (limit : Nat) :
    ∀ (pre : List HField) (u : Nat) (post : List HField) (t : HpackTable)
      (seen : Bool),
      (∃ f ∈ pre, f.isSizeUpdate = false) →
      ∃ msg, decodeFields limit (pre ++ HField.sizeUpdate u :: post) t seen =
        Except.error msg := by
  intro pre
  induction pre with
  | nil =>
    intro u post t seen hex
    simp at hex
  | cons f rest ih =>
    intro u post t seen hex
    cases f with
    | indexed idx =>
      rcases hl : t.lookup idx with _ | e
      · exact ⟨"Field not found", by simp [decodeFields, hl]⟩
      · obtain ⟨msg, hmsg⟩ := decodeFields_seen_update_errors limit
          (rest ++ HField.sizeUpdate u :: post) t
          ⟨HField.sizeUpdate u, by simp, rfl⟩
        exact ⟨msg, by simp [decodeFields, hl, hmsg, Except.map]⟩
    | sizeUpdate size =>
      have hex' : ∃ g ∈ rest, g.isSizeUpdate = false := by
        rcases hex with ⟨g, hg, hup⟩
        rcases List.mem_cons.mp hg with rfl | hg'
        · simp [HField.isSizeUpdate] at hup
        · exact ⟨g, hg', hup⟩
      by_cases hseen : seen = true
      · exact ⟨"HPACK dynamic table size update must occur at the start of a header block",
          by simp [decodeFields, hseen]⟩
      · by_cases hsz : size > limit
        · refine ⟨"HPACK dynamic table size update exceeds limit", ?_⟩
          have hseen' : seen = false := by
            cases seen
            · rfl
            · exact absurd rfl hseen
          simp [decodeFields, hseen', hsz]
        · have hseen' : seen = false := by
            cases seen
            · rfl
            · exact absurd rfl hseen
          subst hseen'
          obtain ⟨msg, hmsg⟩ := ih u post (t.updateSize size) false hex'
          exact ⟨msg, by simp [decodeFields, hsz, hmsg]⟩
    | literalNoInc ni nameIdx nameLit value =>
      rcases hl : (if nameIdx = 0 then some (nameLit, "") else t.lookup nameIdx)
        with _ | e
      · exact ⟨"Field not found", by simp [decodeFields, hl]⟩
      · obtain ⟨msg, hmsg⟩ := decodeFields_seen_update_errors limit
          (rest ++ HField.sizeUpdate u :: post) t
          ⟨HField.sizeUpdate u, by simp, rfl⟩
        exact ⟨msg, by simp [decodeFields, hl, hmsg, Except.map]⟩
    | literalInc nameIdx nameLit value =>
      rcases hl : (if nameIdx = 0 then some (nameLit, "") else t.lookup nameIdx)
        with _ | e
      · exact ⟨"Field not found", by simp [decodeFields, hl]⟩
      · obtain ⟨msg, hmsg⟩ := decodeFields_seen_update_errors limit
          (rest ++ HField.sizeUpdate u :: post) (t.add e.1 value)
          ⟨HField.sizeUpdate u, by simp, rfl⟩
        exact ⟨msg, by simp [decodeFields, hl, hmsg, Except.map]⟩

/-- C4: a header block in which a dynamic-table-size update appears after at
least one non-update field fails to decode, and on an open stream the
connection treats the failure as a COMPRESSION_ERROR (GOAWAY); likewise a
block starting with a size update larger than the decoder's agreed table
size is rejected the same way. -/
theorem hpack_size_update_rejected (limit : Nat) (pre post : List HField)
    (u : Nat) (hpre : ∃ f ∈ pre, f.isSizeUpdate = false) (uBig : Nat)
    (hbig : uBig > limit) :
    (∃ msg, hpackDecode limit (pre ++ HField.sizeUpdate u :: post) =
        Except.error msg) ∧
    processHeaderBlock true "open" limit (pre ++ HField.sizeUpdate u :: post) =
      HeaderBlockOutcome.connectionError COMPRESSION_ERROR ∧
    (∃ msg, hpackDecode limit (HField.sizeUpdate uBig :: post) =
        Except.error msg) ∧
    processHeaderBlock true "open" limit (HField.sizeUpdate uBig :: post) =
      HeaderBlockOutcome.connectionError COMPRESSION_ERROR := by
  obtain ⟨msg1, hmsg1⟩ :=
    decodeFields_late_update_errors limit pre u post ⟨[], 0, limit⟩ false hpre
  have hdec2 : hpackDecode limit (HField.sizeUpdate uBig :: post) =
      Except.error "HPACK dynamic table size update exceeds limit" := by
    simp [hpackDecode, decodeFields, hbig]
  refine ⟨⟨msg1, hmsg1⟩, ?_, ⟨_, hdec2⟩, ?_⟩
  · simp [processHeaderBlock, hpackDecode] at hmsg1 ⊢
    rw [hmsg1]
  · simp [processHeaderBlock]
    rw [hdec2]

/-- Witness for C4: the block `[:method: GET (indexed 2), size update 0]`
is rejected on an open stream, as is `[size update 8192]` against the
4096-octet table. -/
theorem hpack_size_update_rejected_witness :
    (∃ msg, hpackDecode 4096 [HField.indexed 2, HField.sizeUpdate 0] =
        Except.error msg) ∧
    processHeaderBlock true "open" 4096 [HField.indexed 2, HField.sizeUpdate 0] =
      HeaderBlockOutcome.connectionError COMPRESSION_ERROR ∧
    (∃ msg, hpackDecode 4096 [HField.sizeUpdate 8192] = Except.error msg) ∧
    processHeaderBlock true "open" 4096 [HField.sizeUpdate 8192] =
      HeaderBlockOutcome.connectionError COMPRESSION_ERROR := by
  have h := hpack_size_update_rejected 4096 [HField.indexed 2] []
    0 ⟨HField.indexed 2, by simp, rfl⟩ 8192 (by norm_num)
  simpa using h

/-- Model of `closeBody` never turns a non-errored stream into an errored one. -/
theorem isErroredTerminal_closeBody (t : BodyTerminal) :
    isErroredTerminal (closeBody t) = isErroredTerminal t := by
  cases t <;> rfl

/-- Model of `enqueueBody` does not change the terminal state. -/
theorem enqueueBody_terminal (s : BodyPhase) (cs : List (List Nat)) :
    (enqueueBody s cs).terminal = s.terminal := by
  unfold enqueueBody
  cases hs : s.terminal
  · rfl
  · exact hs
  · exact hs
  · exact hs

/-- Model of `processBodyData` never errors the body stream. -/
theorem processBodyData_not_errored (s : BodyPhase) (data : List Nat)
    (h : isErroredTerminal s.terminal = false) :
    isErroredTerminal (processBodyData s data).terminal = false := by
  unfold processBodyData
  rcases hm : s.parsed.bodyMode <;> rcases hd : s.chunkedDecoder with _ | dec <;>
    simp only [hm, hd]
  all_goals try (rcases hf : dec.feed data with msg | dec' <;> simp only [hf])
  all_goals try split
  all_goals try simp only [enqueueBody_terminal, isErroredTerminal_closeBody]
  all_goals try (simp only [isErroredTerminal] at h ⊢)
  all_goals exact h

/-- A socket event never errors the body stream. -/
theorem stepBody_not_errored (s : BodyPhase) (e : SocketEvent)
    (h : isErroredTerminal s.terminal = false) :
    isErroredTerminal (stepBody s e).terminal = false := by
  unfold stepBody
  by_cases hc : s.cleaned
  · simpa [hc] using h
  · cases e with
    | dataEv bytes =>
      simpa [hc] using processBodyData_not_errored s bytes h
    | endEv =>
      simpa [hc, isErroredTerminal_closeBody] using h

/-- The body stream never ends in the errored state under data/EOF
events. -/
theorem runBody_not_errored (resp : ParsedResponse)
    (events : List SocketEvent) :
    isErroredTerminal ((runBody resp events).terminal) = false := by
  unfold runBody
  have hinit : isErroredTerminal ((initBody resp).terminal) = false := by
    by_cases hb : resp.bodyMode = BodyMode.contentLength ∧ resp.contentLength = 0
    · simp [initBody, hb, isErroredTerminal]
    · simp [initBody, hb, isErroredTerminal]
  generalize initBody resp = s0 at hinit ⊢
  induction events generalizing s0 with
  | nil => exact hinit
  | cons e rest ih =>
    exact ih (stepBody s0 e) (stepBody_not_errored s0 e hinit)

/-- C5 (divergence): socket EOF before the body is complete does NOT error
the body stream.  In general, no data/EOF event sequence ever reaches the
errored terminal; concretely, for a `content-length: 5` response that has
delivered only 2 body bytes, EOF closes the stream normally (a reader sees
a clean end after 2 of 5 bytes).  The claim (and the spec) instead require
an error in the content-length and chunked modes. -/
theorem readResponse_eof_closes_normally :
    (∀ (resp : ParsedResponse) (events : List SocketEvent),
      isErroredTerminal ((runBody resp events).terminal) = false) ∧
    ∃ resp : ParsedResponse,
      parseResponseHead (strBytes "HTTP/1.1 200 OK\r\nContent-Length: 5\r\n\r\n") =
        some (resp, 38) ∧
      resp.bodyMode = BodyMode.contentLength ∧
      resp.contentLength = 5 ∧
      (runBody resp [SocketEvent.dataEv [97, 98], SocketEvent.endEv]).bodyBytesReceived
        = 2 ∧
      (runBody resp [SocketEvent.dataEv [97, 98], SocketEvent.endEv]).terminal =
        BodyTerminal.closed := by
  refine ⟨runBody_not_errored, ⟨⟨"HTTP/1.1", 200, "OK",
    [("content-length", "5")], [("content-length", "5")],
    BodyMode.contentLength, 5⟩, ?_, rfl, rfl, rfl, rfl⟩⟩
  rfl

end StealthFetch
